import Mathlib

/-!
String Analysis API (`src/server.js`, `src/charFrequency.js`).

A shallow embedding of the Express service: the in-memory `database`, the
handlers of `POST /strings`, `GET /strings/:string_value`, `GET /strings`,
`GET /strings/filter-by-natural-language` and `DELETE /strings/:string_value`,
and the analyzer `letterFrequency`.

JavaScript strings are sequences of UTF-16 code units, so a string is a list of
natural numbers (each below `0x10000`).  What the program takes from its
runtime and from modules that are not part of the translated sources
(`String.prototype.toLowerCase`, the SHA-256 digest, `palindromeChecker`,
`uniqueCharCount`, `space`) is collected in `Env`; general theorems hold for
every `Env`, and `node` is one concrete, executable environment.
-/

set_option autoImplicit false

namespace StringAnalyzer

/-! ## JavaScript strings -/

/-- A JavaScript string, as its sequence of UTF-16 code units. -/
abbrev JSString := List Nat

/-- UTF-16 encoding of one Unicode scalar value. -/
def utf16Char (c : Char) : List Nat :=
  if c.toNat < 0x10000 then [c.toNat]
  else [0xD800 + (c.toNat - 0x10000) / 0x400, 0xDC00 + (c.toNat - 0x10000) % 0x400]

/-- The JavaScript string denoted by a string literal. -/
def utf16 (s : String) : JSString := s.toList.flatMap utf16Char

def isHighSurrogate (u : Nat) : Bool := decide (0xD800 ≤ u) && decide (u ≤ 0xDBFF)

def isLowSurrogate (u : Nat) : Bool := decide (0xDC00 ≤ u) && decide (u ≤ 0xDFFF)

/-- The string iterator behind `for (const char of s)`, reading one code unit
at a time; `pending` is a high surrogate still waiting for its low surrogate. -/
def codePointsFrom (pending : Option Nat) : JSString → List JSString
  | [] =>
    match pending with
    | none => []
    | some h => [[h]]
  | u :: tl =>
    match pending with
    | none =>
      if isHighSurrogate u then codePointsFrom (some u) tl
      else [u] :: codePointsFrom none tl
    | some h =>
      if isLowSurrogate u then [h, u] :: codePointsFrom none tl
      else if isHighSurrogate u then [h] :: codePointsFrom (some u) tl
      else [h] :: [u] :: codePointsFrom none tl

/-- The strings produced by `for (const char of s)`: one per code point, a
surrogate pair giving a two-unit string and a lone surrogate a one-unit string. -/
def codePoints (s : JSString) : List JSString := codePointsFrom none s

/-- The character class `[a-z]` on one code unit. -/
def isLowerAZ (u : Nat) : Bool := decide (97 ≤ u) && decide (u ≤ 122)

/-- The character class `\d` (no `u` flag): `[0-9]`. -/
def isDigit (u : Nat) : Bool := decide (48 ≤ u) && decide (u ≤ 57)

/-- `/[a-z]/.test(char)`: some code unit of `char` is in `a`..`z`. -/
def testLowerAZ (char : JSString) : Bool := char.any isLowerAZ

/-- `hay.startsWith(needle)`, unit by unit. -/
def startsWith : JSString → JSString → Bool
  | _, [] => true
  | [], _ :: _ => false
  | h :: hs, n :: ns => decide (h = n) && startsWith hs ns

/-- `hay.includes(needle)`: `needle` occurs at some position of `hay`. -/
def includes : JSString → JSString → Bool
  | [], needle => startsWith [] needle
  | h :: hs, needle => startsWith (h :: hs) needle || includes hs needle

/-! ## The environment -/

/-- What the handlers call but `src/` does not define: the runtime's
`toLowerCase` and SHA-256 hex digest, and the analyzers imported from
`./palindrome.js`, `./uniqueChar.js` and `./wordCount.js`. -/
structure Env where
  /-- `String.prototype.toLowerCase`. -/
  toLowerCase : JSString → JSString
  /-- `crypto.createHash("sha256").update(s).digest("hex")` for a string `s`. -/
  sha256Hex : JSString → JSString
  /-- `palindromeChecker` of `./palindrome.js`. -/
  palindromeChecker : JSString → Bool
  /-- `uniqueCharCount` of `./uniqueChar.js`. -/
  uniqueCharCount : JSString → Nat
  /-- `space` of `./wordCount.js`, the word count. -/
  space : JSString → Nat

/-! ## `charFrequency.js` -/

/-- A plain object with string keys and numeric values, as its own properties
in insertion order. -/
abbrev FreqMap := List (JSString × Nat)

/-- `freq[key]`, `none` for `undefined`. -/
def FreqMap.get (freq : FreqMap) (key : JSString) : Option Nat :=
  match freq with
  | [] => none
  | (k, v) :: rest => if k = key then some v else FreqMap.get rest key

/-- `freq[key] = v`: an existing property keeps its place, a new one goes last. -/
def FreqMap.set (freq : FreqMap) (key : JSString) (v : Nat) : FreqMap :=
  match freq with
  | [] => [(key, v)]
  | (k, w) :: rest => if k = key then (k, v) :: rest else (k, w) :: FreqMap.set rest key v

/-- `freq[char] || 0`. -/
def FreqMap.getOrZero (freq : FreqMap) (key : JSString) : Nat :=
  match freq.get key with
  | none => 0
  | some v => if v = 0 then 0 else v

/-- The loop of `letterFrequency` over the lower-cased string `cleaned`. -/
def tally (cleaned : JSString) : FreqMap :=
  (codePoints cleaned).foldl
    (fun freq char => if testLowerAZ char then freq.set char (freq.getOrZero char + 1) else freq)
    []

/-- The same loop over single letters, each letter `u` counted under the key
`[u]`, starting from `freq`. -/
def tallyLetters (freq : FreqMap) (letters : List Nat) : FreqMap :=
  letters.foldl (fun freq u => freq.set [u] (freq.getOrZero [u] + 1)) freq

/-- The string `s` with every non-ASCII code unit removed. -/
def removeNonAscii (s : JSString) : JSString := s.filter (fun u => decide (u < 128))

/-- `letterFrequency(str)` of `charFrequency.js`. -/
def letterFrequency (env : Env) (str : JSString) : FreqMap :=
  let cleaned := env.toLowerCase str
  tally cleaned

/-! ## The runtime: UTF-8 and SHA-256

`crypto.createHash("sha256").update(input)` hashes the UTF-8 encoding of a
string; a lone surrogate is encoded as U+FFFD. -/

/-- The code point of one string produced by the string iterator; a lone
surrogate counts as U+FFFD, as in the UTF-8 encoder. -/
def scalarOf (char : JSString) : Nat :=
  match char with
  | [hi, lo] => 0x10000 + (hi - 0xD800) * 0x400 + (lo - 0xDC00)
  | [u] => if isHighSurrogate u || isLowSurrogate u then 0xFFFD else u
  | _ => 0xFFFD

/-- UTF-8 bytes of one code point. -/
def utf8CodePoint (cp : Nat) : List Nat :=
  if cp < 0x80 then [cp]
  else if cp < 0x800 then [0xC0 + cp / 64, 0x80 + cp % 64]
  else if cp < 0x10000 then [0xE0 + cp / 4096, 0x80 + cp / 64 % 64, 0x80 + cp % 64]
  else [0xF0 + cp / 262144, 0x80 + cp / 4096 % 64, 0x80 + cp / 64 % 64, 0x80 + cp % 64]

/-- UTF-8 encoding of a JavaScript string. -/
def utf8 (s : JSString) : List Nat :=
  (codePoints s).flatMap (fun char => utf8CodePoint (scalarOf char))

namespace Sha256

/-- Reduction to a 32-bit word. -/
def word (x : Nat) : Nat := x % 4294967296

def rotr (x n : Nat) : Nat := word ((x >>> n) ||| (x <<< (32 - n)))

def ch (e f g : Nat) : Nat := (e &&& f) ^^^ ((4294967295 - e) &&& g)

def maj (a b c : Nat) : Nat := (a &&& b) ^^^ (a &&& c) ^^^ (b &&& c)

def bigSigma0 (a : Nat) : Nat := rotr a 2 ^^^ rotr a 13 ^^^ rotr a 22

def bigSigma1 (e : Nat) : Nat := rotr e 6 ^^^ rotr e 11 ^^^ rotr e 25

def smallSigma0 (x : Nat) : Nat := rotr x 7 ^^^ rotr x 18 ^^^ (x >>> 3)

def smallSigma1 (x : Nat) : Nat := rotr x 17 ^^^ rotr x 19 ^^^ (x >>> 10)

/-- The 64 round constants. -/
def roundConstants : List Nat :=
  [1116352408, 1899447441, 3049323471, 3921009573, 961987163, 1508970993,
   2453635748, 2870763221, 3624381080, 310598401, 607225278, 1426881987,
   1925078388, 2162078206, 2614888103, 3248222580, 3835390401, 4022224774,
   264347078, 604807628, 770255983, 1249150122, 1555081692, 1996064986,
   2554220882, 2821834349, 2952996808, 3210313671, 3336571891, 3584528711,
   113926993, 338241895, 666307205, 773529912, 1294757372, 1396182291,
   1695183700, 1986661051, 2177026350, 2456956037, 2730485921, 2820302411,
   3259730800, 3345764771, 3516065817, 3600352804, 4094571909, 275423344,
   430227734, 506948616, 659060556, 883997877, 958139571, 1322822218,
   1537002063, 1747873779, 1955562222, 2024104815, 2227730452, 2361852424,
   2428436474, 2756734187, 3204031479, 3329325298]

/-- The initial hash value. -/
def initialHash : List Nat :=
  [1779033703, 3144134277, 1013904242, 2773480762, 1359893119, 2600822924,
   528734635, 1541459225]

/-- Big-endian bytes of `x`, `n` of them. -/
def bigEndian : Nat → Nat → List Nat
  | 0, _ => []
  | n + 1, x => (x / 256 ^ n) % 256 :: bigEndian n x

/-- Message padding: a `1` bit, zeros, and the bit length in 64 bits. -/
def pad (msg : List Nat) : List Nat :=
  msg ++ [0x80] ++ List.replicate ((119 - msg.length % 64) % 64) 0 ++ bigEndian 8 (msg.length * 8)

/-- The big-endian 32-bit words of a byte sequence. -/
def toWords : List Nat → List Nat
  | a :: b :: c :: d :: rest => (((a * 256 + b) * 256 + c) * 256 + d) :: toWords rest
  | _ => []

/-- The message schedule: `n` more words after the ones in `w`. -/
def schedule : Nat → List Nat → List Nat
  | 0, w => w
  | n + 1, w =>
    let i := w.length
    schedule n (w ++ [word (smallSigma1 (w.getD (i - 2) 0) + w.getD (i - 7) 0
      + smallSigma0 (w.getD (i - 15) 0) + w.getD (i - 16) 0)])

/-- One round on the working variables `[a, b, c, d, e, f, g, h]`. -/
def round (v : List Nat) (kw : Nat × Nat) : List Nat :=
  match v with
  | [a, b, c, d, e, f, g, h] =>
    let t1 := h + bigSigma1 e + ch e f g + kw.1 + kw.2
    let t2 := bigSigma0 a + maj a b c
    [word (t1 + t2), a, b, c, word (d + t1), e, f, g]
  | _ => v

/-- The compression function on one 64-byte block. -/
def compress (hash : List Nat) (block : List Nat) : List Nat :=
  let w := schedule 48 (toWords block)
  let v := (roundConstants.zip w).foldl round hash
  List.zipWith (fun x y => word (x + y)) hash v

/-- All blocks of a padded message, `n` of them. -/
def compressAll : Nat → List Nat → List Nat → List Nat
  | 0, hash, _ => hash
  | n + 1, hash, bytes => compressAll n (compress hash (bytes.take 64)) (bytes.drop 64)

/-- The 32-byte digest of a byte sequence. -/
def digest (msg : List Nat) : List Nat :=
  let padded := pad msg
  (compressAll (padded.length / 64) initialHash padded).flatMap (bigEndian 4)

def hexDigit (d : Nat) : Nat := if d < 10 then 48 + d else 87 + d

/-- Lower-case hexadecimal of a byte sequence, as a string. -/
def hex (bytes : List Nat) : JSString := bytes.flatMap (fun b => [hexDigit (b / 16), hexDigit (b % 16)])

end Sha256

/-- `crypto.createHash("sha256").update(s).digest("hex")`. -/
def sha256Hex (s : JSString) : JSString := Sha256.hex (Sha256.digest (utf8 s))

/-! ## The data model of `server.js` -/

/-- The `properties` object of a stored record. -/
structure Properties where
  length : Nat
  is_palindrome : Bool
  unique_characters : Nat
  word_count : Nat
  sha256_hash : JSString
  character_frequency_map : FreqMap
deriving DecidableEq, Repr

/-- The record built by `POST /strings` (`result`). -/
structure StringRecord where
  id : JSString
  value : JSString
  properties : Properties
  created_at : JSString
deriving DecidableEq, Repr

/-- The object `database`: its own properties in enumeration order.  Keys are
SHA-256 hex digests (64 characters), which are neither integer-like nor names
inherited from `Object.prototype`, so enumeration order is insertion order and
`database[hash]` sees own properties only. -/
abbrev Store := List (JSString × StringRecord)

/-- `database[hash]`, `none` for `undefined`. -/
def Store.get (database : Store) (hash : JSString) : Option StringRecord :=
  match database with
  | [] => none
  | (k, r) :: rest => if k = hash then some r else Store.get rest hash

/-- `database[hash] = result`: an existing key keeps its place, a new key goes last. -/
def Store.set (database : Store) (hash : JSString) (result : StringRecord) : Store :=
  match database with
  | [] => [(hash, result)]
  | (k, r) :: rest =>
    if k = hash then (k, result) :: rest else (k, r) :: Store.set rest hash result

/-- `delete database[hash]`. -/
def Store.delete (database : Store) (hash : JSString) : Store :=
  database.filter (fun entry => decide (entry.1 ≠ hash))

/-- `Object.values(database)`. -/
def Store.values (database : Store) : List StringRecord := database.map Prod.snd

/-- `Object.keys(database)`. -/
def Store.keys (database : Store) : List JSString := database.map Prod.fst

/-- An object has each key once. -/
def Store.WF (database : Store) : Prop := database.keys.Nodup

/-- A value of a parsed JSON body, with `undefined` for a missing one.  A
number is kept as its decimal literal `mantissa * 10 ^ exponent`; an object is
its own properties in enumeration order. -/
inductive JSValue where
  | undefined
  | null
  | bool (b : Bool)
  | number (mantissa exponent : Int)
  | string (s : JSString)
  | array (items : List JSValue)
  | object (props : List (JSString × JSValue))

/-- `Object.values(data)`; `none` when it throws (`undefined`, `null`). -/
def objectValues : JSValue → Option (List JSValue)
  | .undefined => none
  | .null => none
  | .bool _ => some []
  | .number _ _ => some []
  | .string s => some (s.map (fun u => JSValue.string [u]))
  | .array items => some items
  | .object props => some (props.map Prod.snd)

/-- Reading a property of `undefined` or `null` throws. -/
def isNullish : JSValue → Bool
  | .undefined => true
  | .null => true
  | _ => false

/-- `v === undefined`. -/
def isUndefined : JSValue → Bool
  | .undefined => true
  | _ => false

/-- The string behind a value with `typeof v === "string"`. -/
def asString : JSValue → Option JSString
  | .string s => some s
  | _ => none

/-- The number values the handlers compute with: the integers, the infinities
and `NaN` (`-0` is `0`: the handlers cannot tell them apart). -/
inductive JSNumber where
  | finite (z : Int)
  | posInf
  | negInf
  | nan
deriving DecidableEq, Repr

/-- The filter object (`filters`, `parsed_filters`); `none` is an absent field. -/
structure Filters where
  is_palindrome : Option Bool
  min_length : Option JSNumber
  max_length : Option JSNumber
  word_count : Option JSNumber
  contains_character : Option JSString
deriving DecidableEq, Repr

/-- A response body. -/
inductive Body where
  | error (message : String)
  | record (r : StringRecord)
  | filtered (data : List StringRecord) (count : Nat) (filters_applied : Filters)
  | interpreted (data : List StringRecord) (count : Nat) (original : JSString)
      (parsed_filters : Filters)
  | empty
  | text (content : String)
deriving DecidableEq, Repr

/-- What a handler does with a request: it sends a response, or an exception
leaves the handler. -/
inductive Outcome where
  | respond (status : Nat) (body : Body)
  | throws (error : String)
deriving DecidableEq, Repr

/-- The status of the response, if one is sent. -/
def Outcome.status : Outcome → Option Nat
  | .respond status _ => some status
  | .throws _ => none

/-! ## `POST /strings`, `GET /strings/:string_value`, `DELETE /strings/:string_value` -/

/-- The object `result` of lines 35-47 for the string `input` with digest `hash`. -/
def buildResult (env : Env) (now : JSString) (input hash : JSString) : StringRecord :=
  { id := hash
    value := input
    properties :=
      { length := input.length
        is_palindrome := env.palindromeChecker input
        unique_characters := env.uniqueCharCount input
        word_count := env.space input
        sha256_hash := hash
        character_frequency_map := letterFrequency env input }
    created_at := now }

/-- The `POST /strings` handler (lines 17-51) on the parsed body `data`, with
`now` the value of `new Date().toISOString()`.  Lines 20 and 21 run before the
checks of lines 24 and 27: `input.length` throws for `undefined` and `null`,
and `update(input)` throws for every other value that is not a string. -/
def postStrings (env : Env) (now : JSString) (database : Store) (data : JSValue) :
    Outcome × Store :=
  match objectValues data with
  | none => (.throws "TypeError", database)
  | some values =>
    let input := values.headD .undefined
    if isNullish input then (.throws "TypeError", database)
    else
      match asString input with
      | none => (.throws "TypeError [ERR_INVALID_ARG_TYPE]", database)
      | some s =>
        let hash := env.sha256Hex s
        if isUndefined input then
          (.respond 400 (.error "Missing \"input\" field"), database)
        else if (asString input).isNone then
          (.respond 422 (.error "\"input\" must be a string"), database)
        else if (database.get hash).isSome then
          (.respond 409 (.error "String already exists in the system"), database)
        else
          let result := buildResult env now s hash
          (.respond 201 (.record result), database.set hash result)

/-- The `GET /strings/:string_value` handler (lines 54-64). -/
def getString (env : Env) (database : Store) (string_value : JSString) : Outcome × Store :=
  let hash := env.sha256Hex string_value
  match database.get hash with
  | none => (.respond 404 (.error "String does not exist in the system"), database)
  | some record => (.respond 200 (.record record), database)

/-- The `DELETE /strings/:string_value` handler (lines 207-217). -/
def deleteString (env : Env) (database : Store) (string_value : JSString) : Outcome × Store :=
  let hash := env.sha256Hex string_value
  match database.get hash with
  | none => (.respond 404 (.error "String does not exist in the system"), database)
  | some _ => (.respond 204 .empty, database.delete hash)

/-! ## Numbers and `parseInt` -/

/-- Number of binary digits of `n`, with `fuel` at least that number. -/
def bitLengthAux : Nat → Nat → Nat
  | 0, _ => 0
  | fuel + 1, n => if n = 0 then 0 else bitLengthAux fuel (n / 2) + 1

/-- Number of binary digits of `n`. -/
def bitLength (n : Nat) : Nat := bitLengthAux n n

/-- The Number value of a natural number: the nearest double (53 significant
bits), ties to even; `none` is `Infinity`, reached from `2 ^ 1024 - 2 ^ 970`. -/
def roundNat (n : Nat) : Option Nat :=
  if n < 2 ^ 53 then some n
  else
    let e := bitLength n - 53
    let q := n / 2 ^ e
    let r := n % 2 ^ e
    let half := 2 ^ (e - 1)
    let q' := if half < r ∨ (r = half ∧ q % 2 = 1) then q + 1 else q
    if q' * 2 ^ e < 2 ^ 1024 then some (q' * 2 ^ e) else none

/-- The Number value of an integer. -/
def JSNumber.ofInt (z : Int) : JSNumber :=
  if 0 ≤ z then
    match roundNat z.toNat with
    | some m => .finite m
    | none => .posInf
  else
    match roundNat (-z).toNat with
    | some m => .finite (-(m : Int))
    | none => .negInf

/-- `x + 1`. -/
def JSNumber.addOne : JSNumber → JSNumber
  | .finite z => JSNumber.ofInt (z + 1)
  | .posInf => .posInf
  | .negInf => .negInf
  | .nan => .nan

/-- `isNaN(x)`. -/
def JSNumber.isNaN : JSNumber → Bool
  | .nan => true
  | _ => false

/-- `a < x` for a non-negative integer `a`. -/
def JSNumber.natLt (a : Nat) : JSNumber → Bool
  | .finite z => decide ((a : Int) < z)
  | .posInf => true
  | .negInf => false
  | .nan => false

/-- `a > x` for a non-negative integer `a`. -/
def JSNumber.natGt (a : Nat) : JSNumber → Bool
  | .finite z => decide (z < (a : Int))
  | .posInf => false
  | .negInf => true
  | .nan => false

/-- `a !== x` for a non-negative integer `a`. -/
def JSNumber.natNe (a : Nat) : JSNumber → Bool
  | .finite z => decide ((a : Int) ≠ z)
  | .posInf => true
  | .negInf => true
  | .nan => true

/-- White space as `parseInt`, `trim` and `\s` see it. -/
def isWhiteSpace (u : Nat) : Bool :=
  decide (u ∈ [9, 10, 11, 12, 13, 32, 0xA0, 0x1680, 0x2028, 0x2029, 0x202F, 0x205F, 0x3000, 0xFEFF])
    || (decide (0x2000 ≤ u) && decide (u ≤ 0x200A))

/-- The value of a code unit as a digit of the radix, if it is one. -/
def digitValue (radix u : Nat) : Option Nat :=
  let d :=
    if 48 ≤ u ∧ u ≤ 57 then u - 48
    else if 97 ≤ u ∧ u ≤ 122 then u - 87
    else if 65 ≤ u ∧ u ≤ 90 then u - 55
    else radix
  if d < radix then some d else none

/-- The digits at the start of a string, as their values. -/
def leadingDigits (radix : Nat) : JSString → List Nat
  | [] => []
  | u :: rest =>
    match digitValue radix u with
    | some d => d :: leadingDigits radix rest
    | none => []

/-- The string without a leading `-` or `+`. -/
def stripSign : JSString → JSString
  | 45 :: rest => rest
  | 43 :: rest => rest
  | s => s

/-- The string starts with `0x` or `0X`. -/
def hasHexPrefix : JSString → Bool
  | 48 :: 120 :: _ => true
  | 48 :: 88 :: _ => true
  | _ => false

/-- `parseInt(s)` with no radix argument: leading white space, a sign, an
optional `0x`, then the longest run of digits; `NaN` without a digit.  (Past
20 significant decimal digits the standard lets an implementation replace
digits by zeros; here the value is rounded exactly.) -/
def parseInt (s : JSString) : JSNumber :=
  let trimmed := s.dropWhile isWhiteSpace
  let negative : Bool := decide (trimmed.head? = some 45)
  let unsigned := stripSign trimmed
  let radix := if hasHexPrefix unsigned then 16 else 10
  let body := if hasHexPrefix unsigned then unsigned.drop 2 else unsigned
  let digits := leadingDigits radix body
  if digits.isEmpty then .nan
  else
    let mathInt : Nat := digits.foldl (fun acc d => acc * radix + d) 0
    JSNumber.ofInt (if negative then -(mathInt : Int) else mathInt)

/-! ## `GET /strings` -/

/-- A value of `req.query`: a string, or an array or object built by the query
parser, of which the handlers only ever use `ToString`. -/
inductive QueryValue where
  | str (s : JSString)
  | composite (toStr : JSString)
deriving DecidableEq, Repr

/-- `ToString(v)`, as `parseInt(v)` applies it. -/
def QueryValue.toStr : QueryValue → JSString
  | .str s => s
  | .composite t => t

/-- The fields of `req.query` that `GET /strings` reads; `none` is `undefined`. -/
structure Query where
  is_palindrome : Option QueryValue
  min_length : Option QueryValue
  max_length : Option QueryValue
  word_count : Option QueryValue
  contains_character : Option QueryValue
deriving DecidableEq, Repr

/-- Lines 87-91 (and 93-97, 99-103): an integer parameter. -/
def validateInt (message : String) : Option QueryValue → Except String (Option JSNumber)
  | none => .ok none
  | some v =>
    let val := parseInt v.toStr
    if val.isNaN then .error message else .ok (some val)

/-- Lines 80-85: the parameter `is_palindrome`. -/
def validatePalindrome : Option QueryValue → Except String (Option Bool)
  | none => .ok none
  | some v =>
    if v ≠ .str (utf16 "true") ∧ v ≠ .str (utf16 "false") then
      .error "is_palindrome must be \"true\" or \"false\""
    else .ok (some (decide (v = .str (utf16 "true"))))

/-- Lines 105-110: the parameter `contains_character`. -/
def validateCharacter (env : Env) : Option QueryValue → Except String (Option JSString)
  | none => .ok none
  | some (.composite _) => .error "contains_character must be a single character"
  | some (.str c) =>
    if c.length ≠ 1 then .error "contains_character must be a single character"
    else .ok (some (env.toLowerCase c))

/-- Lines 80-110: the query parameters converted to `filters`, or the message
of the 400 response of the first check that fails. -/
def validateQuery (env : Env) (query : Query) : Except String Filters :=
  match validatePalindrome query.is_palindrome with
  | .error e => .error e
  | .ok is_palindrome =>
  match validateInt "min_length must be an integer" query.min_length with
  | .error e => .error e
  | .ok min_length =>
  match validateInt "max_length must be an integer" query.max_length with
  | .error e => .error e
  | .ok max_length =>
  match validateInt "word_count must be an integer" query.word_count with
  | .error e => .error e
  | .ok word_count =>
  match validateCharacter env query.contains_character with
  | .error e => .error e
  | .ok contains_character =>
    .ok { is_palindrome, min_length, max_length, word_count, contains_character }

/-- Line 117: `filters.is_palindrome !== undefined && p.is_palindrome !== filters.is_palindrome`. -/
def failsPalindrome (filters : Filters) (p : Properties) : Bool :=
  match filters.is_palindrome with
  | some b => p.is_palindrome != b
  | none => false

/-- Line 119: `filters.min_length !== undefined && p.length < filters.min_length`. -/
def failsMinLength (filters : Filters) (p : Properties) : Bool :=
  match filters.min_length with
  | some m => JSNumber.natLt p.length m
  | none => false

/-- Line 121: `filters.max_length !== undefined && p.length > filters.max_length`. -/
def failsMaxLength (filters : Filters) (p : Properties) : Bool :=
  match filters.max_length with
  | some m => JSNumber.natGt p.length m
  | none => false

/-- Line 123: `filters.word_count !== undefined && p.word_count !== filters.word_count`. -/
def failsWordCount (filters : Filters) (p : Properties) : Bool :=
  match filters.word_count with
  | some w => JSNumber.natNe p.word_count w
  | none => false

/-- Line 125: `filters.contains_character !== undefined &&
!entry.value.toLowerCase().includes(filters.contains_character)`. -/
def failsContains (env : Env) (filters : Filters) (entry : StringRecord) : Bool :=
  match filters.contains_character with
  | some c => !(includes (env.toLowerCase entry.value) c)
  | none => false

/-- The callback of `allStrings.filter` of lines 114-129. -/
def matchesFilters (env : Env) (filters : Filters) (entry : StringRecord) : Bool :=
  let p := entry.properties
  if failsPalindrome filters p then false
  else if failsMinLength filters p then false
  else if failsMaxLength filters p then false
  else if failsWordCount filters p then false
  else if failsContains env filters entry then false
  else true

/-- `a >= x` for a non-negative integer `a`. -/
def JSNumber.natGe (a : Nat) : JSNumber → Bool
  | .finite z => decide (z ≤ (a : Int))
  | .posInf => false
  | .negInf => true
  | .nan => false

/-- `a <= x` for a non-negative integer `a`. -/
def JSNumber.natLe (a : Nat) : JSNumber → Bool
  | .finite z => decide ((a : Int) ≤ z)
  | .posInf => true
  | .negInf => false
  | .nan => false

/-- `a === x` for a non-negative integer `a`. -/
def JSNumber.natEq (a : Nat) : JSNumber → Bool
  | .finite z => decide ((a : Int) = z)
  | _ => false

/-- The predicate of the spec (4.3) on a record: every present filter holds. -/
def Filters.HoldsFor (env : Env) (filters : Filters) (r : StringRecord) : Prop :=
  (∀ b ∈ filters.is_palindrome, r.properties.is_palindrome = b)
  ∧ (∀ m ∈ filters.min_length, JSNumber.natGe r.properties.length m = true)
  ∧ (∀ m ∈ filters.max_length, JSNumber.natLe r.properties.length m = true)
  ∧ (∀ w ∈ filters.word_count, JSNumber.natEq r.properties.word_count w = true)
  ∧ (∀ c ∈ filters.contains_character, c <:+: env.toLowerCase r.value)

instance Filters.decidableHoldsFor (env : Env) (filters : Filters) (r : StringRecord) :
    Decidable (filters.HoldsFor env r) :=
  inferInstanceAs (Decidable
    ((∀ b ∈ filters.is_palindrome, r.properties.is_palindrome = b)
    ∧ (∀ m ∈ filters.min_length, JSNumber.natGe r.properties.length m = true)
    ∧ (∀ m ∈ filters.max_length, JSNumber.natLe r.properties.length m = true)
    ∧ (∀ w ∈ filters.word_count, JSNumber.natEq r.properties.word_count w = true)
    ∧ (∀ c ∈ filters.contains_character, c <:+: env.toLowerCase r.value)))

/-- No field of the filter object is `NaN`. -/
def Filters.NoNaN (filters : Filters) : Prop :=
  filters.min_length ≠ some .nan ∧ filters.max_length ≠ some .nan
    ∧ filters.word_count ≠ some .nan

/-- The query `?is_palindrome=true&min_length=5`. -/
def palindromeMin5 : Query :=
  { is_palindrome := some (.str (utf16 "true")), min_length := some (.str (utf16 "5")),
    max_length := none, word_count := none, contains_character := none }

/-- The filter object `{is_palindrome: true, min_length: 5}`. -/
def palindromeMin5Filters : Filters :=
  { is_palindrome := some true, min_length := some (.finite 5), max_length := none,
    word_count := none, contains_character := none }

/-- The `GET /strings` handler (lines 67-140).  Nothing inside its `try` can
throw, so the `catch` of lines 136-139 is never entered. -/
def getStrings (env : Env) (database : Store) (query : Query) : Outcome × Store :=
  match validateQuery env query with
  | .error message => (.respond 400 (.error message), database)
  | .ok filters =>
    let allStrings := database.values
    let filtered := allStrings.filter (matchesFilters env filters)
    (.respond 200 (.filtered filtered filtered.length filters), database)

/-! ## `GET /strings/filter-by-natural-language` -/

/-- A filter object without fields, `{}`. -/
def Filters.empty : Filters :=
  { is_palindrome := none, min_length := none, max_length := none, word_count := none,
    contains_character := none }

/-- `Object.keys(filters).length === 0`. -/
def Filters.hasNoKeys (filters : Filters) : Bool :=
  filters.is_palindrome.isNone && filters.min_length.isNone && filters.max_length.isNone
    && filters.word_count.isNone && filters.contains_character.isNone

/-- The leftmost match of a pattern, from one attempt at the start of a string:
the attempt is made at each position in turn. -/
def firstMatch (attempt : JSString → Option JSString) : JSString → Option JSString
  | [] => attempt []
  | u :: rest =>
    match attempt (u :: rest) with
    | some captured => some captured
    | none => firstMatch attempt rest

/-- `/longer than (\d+)/` at the start of `s`: the captured digits. -/
def longerThanHere (s : JSString) : Option JSString :=
  if startsWith s (utf16 "longer than ") then
    let digits := (s.drop (utf16 "longer than ").length).takeWhile isDigit
    if digits.isEmpty then none else some digits
  else none

/-- `/containing the letter ([a-z])/` at the start of `s`: the captured letter. -/
def containingLetterHere (s : JSString) : Option JSString :=
  if startsWith s (utf16 "containing the letter ") then
    match s.drop (utf16 "containing the letter ").length with
    | u :: _ => if isLowerAZ u then some [u] else none
    | [] => none
  else none

/-- Group 1 of `q.match(/longer than (\d+)/)`, `none` for `null`. -/
def matchLongerThan (q : JSString) : Option JSString := firstMatch longerThanHere q

/-- Group 1 of `q.match(/containing the letter ([a-z])/)`, `none` for `null`. -/
def matchContainingLetter (q : JSString) : Option JSString := firstMatch containingLetterHere q

/-- Lines 152-167: `parsed_filters` for the lower-cased query `q`. -/
def parseRules (q : JSString) : Filters :=
  let f0 := Filters.empty
  let f1 := if includes q (utf16 "palindromic") then { f0 with is_palindrome := some true } else f0
  let f2 :=
    if includes q (utf16 "single word") then { f1 with word_count := some (.finite 1) } else f1
  let f3 :=
    if includes q (utf16 "longer than") then
      match matchLongerThan q with
      | some digits => { f2 with min_length := some (parseInt digits).addOne }
      | none => f2
    else f2
  let f4 :=
    if includes q (utf16 "containing the letter") then
      match matchContainingLetter q with
      | some letter => { f3 with contains_character := some letter }
      | none => f3
    else f3
  if includes q (utf16 "containing the first vowel") then
    { f4 with contains_character := some (utf16 "a") }
  else f4

/-- The callback of `allStrings.filter` of lines 176-189: the conditions of
lines 117-125 again, without the one on `max_length`. -/
def matchesParsedFilters (env : Env) (parsed_filters : Filters) (entry : StringRecord) : Bool :=
  let p := entry.properties
  if failsPalindrome parsed_filters p then false
  else if failsMinLength parsed_filters p then false
  else if failsWordCount parsed_filters p then false
  else if failsContains env parsed_filters entry then false
  else true

/-- The `GET /strings/filter-by-natural-language` handler (lines 144-203) on
`req.query.query`.  For an array or object `query.toLowerCase` is not a
function: the `TypeError` is caught and answered 500. -/
def filterByNaturalLanguage (env : Env) (database : Store) (query : Option QueryValue) :
    Outcome × Store :=
  match query with
  | none => (.respond 400 (.error "Missing query parameter"), database)
  | some (.composite _) => (.respond 500 (.error "Internal Server Error"), database)
  | some (.str query) =>
    if query.isEmpty then (.respond 400 (.error "Missing query parameter"), database)
    else
      let q := env.toLowerCase query
      let parsed_filters := parseRules q
      if parsed_filters.hasNoKeys then
        (.respond 400 (.error "Unable to parse natural language query"), database)
      else
        let allStrings := database.values
        let filtered := allStrings.filter (matchesParsedFilters env parsed_filters)
        (.respond 200 (.interpreted filtered filtered.length query parsed_filters), database)

/-- The decimal digits of `n` put in front of `acc`, least significant digit
first computed; `fuel` exceeds `n`. -/
def decimalAux : Nat → Nat → JSString → JSString
  | 0, _, acc => acc
  | fuel + 1, n, acc =>
    if n < 10 then (n + 48) :: acc else decimalAux fuel (n / 10) ((n % 10 + 48) :: acc)

/-- The natural number `n` written in decimal. -/
def decimal (n : Nat) : JSString := decimalAux (n + 1) n []

/-- The pattern `/longer than (\d+)/` matches `q` at the position after `pre`. -/
def LongerThanAt (q pre : JSString) : Prop :=
  ∃ d post, isDigit d = true ∧ q = pre ++ utf16 "longer than " ++ d :: post

/-- The pattern `/containing the letter ([a-z])/` matches `q` at the position
after `pre`, capturing `c`. -/
def ContainingLetterAt (q pre : JSString) (c : Nat) : Prop :=
  ∃ post, isLowerAZ c = true ∧ q = pre ++ utf16 "containing the letter " ++ c :: post

/-- The number a string of decimal digits denotes. -/
def digitsValue (digits : JSString) : Nat := digits.foldl (fun acc u => acc * 10 + (u - 48)) 0

/-- No rule of the translator fires on the lower-cased query `q`. -/
def NoRuleFires (q : JSString) : Prop :=
  ¬ utf16 "palindromic" <:+: q ∧ ¬ utf16 "single word" <:+: q
    ∧ ¬ utf16 "containing the first vowel" <:+: q
    ∧ ¬ (∃ pre, LongerThanAt q pre) ∧ ¬ (∃ pre c, ContainingLetterAt q pre c)

/-! ## Routing -/

/-- The request method. -/
inductive Method where
  | get
  | head
  | post
  | delete
  | options
  | other
deriving DecidableEq, Repr

/-- A request as the application sees it after `express.json()` and the query
parser: the path split at `/`, without the one trailing slash the router
ignores, each segment percent-decoded (a fixed segment is compared after
decoding, the router compares it before); the fields of `req.query` the
handlers read; the parsed body; and the time of the request. -/
structure Request where
  method : Method
  path : List JSString
  query : Query
  /-- `req.query.query`. -/
  nlQuery : Option QueryValue
  body : JSValue
  now : JSString

/-- One segment of a route path: fixed text or a named parameter. -/
inductive Segment where
  | literal (s : String)
  | param
deriving DecidableEq, Repr

/-- The lower-case form of an ASCII letter; route paths are matched without
regard to case. -/
def foldAscii (u : Nat) : Nat := if 65 ≤ u ∧ u ≤ 90 then u + 32 else u

/-- The parameters captured when a route path matches the request path. -/
def matchesPath : List Segment → List JSString → Option (List JSString)
  | [], [] => some []
  | .literal s :: pattern, segment :: rest =>
    if segment.map foldAscii = utf16 s then matchesPath pattern rest else none
  | .param :: pattern, segment :: rest =>
    if segment.isEmpty then none else (matchesPath pattern rest).map (fun ps => segment :: ps)
  | _, _ => none

/-- A route registered with `app.get`, `app.post` or `app.delete`. -/
structure Route where
  method : Method
  pattern : List Segment
  handler : Env → Store → Request → List JSString → Outcome × Store

/-- A route registered for `GET` also answers `HEAD`. -/
def Route.accepts (route : Route) (method : Method) : Bool :=
  decide (route.method = method) || (decide (route.method = .get) && decide (method = .head))

/-- The routes of `server.js`, in the order they are registered (lines 17, 54,
67, 144, 207 and 220). -/
def routes : List Route :=
  [ { method := .post, pattern := [.literal "strings"],
      handler := fun env database req _ => postStrings env req.now database req.body },
    { method := .get, pattern := [.literal "strings", .param],
      handler := fun env database _ params => getString env database (params.headD []) },
    { method := .get, pattern := [.literal "strings"],
      handler := fun env database req _ => getStrings env database req.query },
    { method := .get, pattern := [.literal "strings", .literal "filter-by-natural-language"],
      handler := fun env database req _ => filterByNaturalLanguage env database req.nlQuery },
    { method := .delete, pattern := [.literal "strings", .param],
      handler := fun env database _ params => deleteString env database (params.headD []) },
    { method := .get, pattern := [],
      handler := fun _ database _ _ =>
        (.respond 200 (.text "ðŸš€ String Analysis API is running!"), database) } ]

/-- The router: the first route, in registration order, whose method and path
match handles the request (no handler calls `next`); without one the answer is
the framework's 404 page, whose text is not modelled. -/
def dispatch (env : Env) (database : Store) (req : Request) : List Route → Outcome × Store
  | [] => (.respond 404 (.text "Cannot route"), database)
  | route :: rest =>
    if route.accepts req.method then
      match matchesPath route.pattern req.path with
      | some params => route.handler env database req params
      | none => dispatch env database req rest
    else dispatch env database req rest

/-- The application on one request: `cors()` answers every `OPTIONS` request
with 204, everything else goes to the router. -/
def handle (env : Env) (database : Store) (req : Request) : Outcome × Store :=
  if req.method = .options then (.respond 204 .empty, database)
  else dispatch env database req routes

/-- The stores the application can be in: the empty store at start, and the
store after any request handled in a reachable store. -/
inductive Reachable (env : Env) : Store → Prop where
  | start : Reachable env []
  | step (database : Store) (req : Request) :
      Reachable env database → Reachable env (handle env database req).2

/-- A query without parameters. -/
def emptyQuery : Query :=
  { is_palindrome := none, min_length := none, max_length := none, word_count := none,
    contains_character := none }

/-- The path `/strings/<value>`: for the empty value it is `/strings/`, whose
trailing slash the router ignores. -/
def valuePath (value : JSString) : List JSString :=
  utf16 "strings" :: (if value.isEmpty then [] else [value])

/-- The request `POST /strings` with the parsed body `body`, made at `now`. -/
def createRequest (now : JSString) (body : JSValue) : Request :=
  { method := .post, path := [utf16 "strings"], query := emptyQuery, nlQuery := none,
    body := body, now := now }

/-- The request `GET /strings/<value>`. -/
def lookupRequest (value : JSString) : Request :=
  { method := .get, path := valuePath value, query := emptyQuery, nlQuery := none,
    body := .object [], now := [] }

/-- The request `DELETE /strings/<value>`. -/
def removeRequest (value : JSString) : Request :=
  { method := .delete, path := valuePath value, query := emptyQuery, nlQuery := none,
    body := .object [], now := [] }

/-- The query `?min_length=999...9`, with 310 nines. -/
def minLengthHuge : Query :=
  { emptyQuery with min_length := some (.str (List.replicate 310 57)) }

/-- The query `?min_length=5abc`. -/
def minLength5abc : Query := { emptyQuery with min_length := some (.str (utf16 "5abc")) }

/-- The query `?max_length=3.7`. -/
def maxLength3dot7 : Query := { emptyQuery with max_length := some (.str (utf16 "3.7")) }

/-- The query `?word_count=abc`. -/
def wordCountAbc : Query := { emptyQuery with word_count := some (.str (utf16 "abc")) }

/-- The query `?is_palindrome=true`. -/
def palindromeTrue : Query := { emptyQuery with is_palindrome := some (.str (utf16 "true")) }

/-- The filter object `{is_palindrome: true}`. -/
def palindromeTrueFilters : Filters := { Filters.empty with is_palindrome := some true }

/-- The request `GET /strings/filter-by-natural-language?query=...`. -/
def naturalLanguageRequest (nlQuery : Option QueryValue) : Request :=
  { method := .get, path := [utf16 "strings", utf16 "filter-by-natural-language"],
    query := emptyQuery, nlQuery := nlQuery, body := .object [], now := [] }

/-- The filter set `g` has every field of `f`, with the same value. -/
def Filters.Extends (g f : Filters) : Prop :=
  (∀ b, f.is_palindrome = some b → g.is_palindrome = some b)
  ∧ (∀ m, f.min_length = some m → g.min_length = some m)
  ∧ (∀ m, f.max_length = some m → g.max_length = some m)
  ∧ (∀ w, f.word_count = some w → g.word_count = some w)
  ∧ (∀ c, f.contains_character = some c → g.contains_character = some c)

/-! ## A concrete environment -/

/-- `String.prototype.toLowerCase` on one code unit of Basic Latin, and on the
two characters outside it whose lower-case form has a Basic Latin letter:
U+0130 (to `i` followed by U+0307) and U+212A, the Kelvin sign (to `k`).
Other code units are copied: their Unicode mappings are not tabulated here. -/
def lowerUnit (u : Nat) : List Nat :=
  if 65 ≤ u ∧ u ≤ 90 then [u + 32]
  else if u = 0x0130 then [0x69, 0x0307]
  else if u = 0x212A then [0x6B]
  else [u]

/-- `toLowerCase` of the concrete environment, see `lowerUnit`. -/
def toLowerCaseLatin (s : JSString) : JSString := s.flatMap lowerUnit

/-- Modelled from the spec: `palindromeChecker` of `./palindrome.js`, which is
not among the sources: "case-insensitive comparison of `s` against its
reverse, ignoring nothing else". -/
def palindromeCheckerSpec (lower : JSString → JSString) (s : JSString) : Bool :=
  decide (lower s = (lower s).reverse)

/-- Modelled from the spec: `uniqueCharCount` of `./uniqueChar.js`, which is
not among the sources: "count of distinct characters in `s` (case-sensitive,
all characters including whitespace/punctuation count once each)". -/
def uniqueCharCountSpec (s : JSString) : Nat := s.dedup.length

/-- Number of maximal runs without white space; `inWord` says the previous
unit was part of a run. -/
def countWords (inWord : Bool) : JSString → Nat
  | [] => 0
  | u :: rest =>
    if isWhiteSpace u then countWords false rest
    else (if inWord then 0 else 1) + countWords true rest

/-- Modelled from the spec: `space` of `./wordCount.js`, which is not among the
sources: "count of maximal whitespace-delimited non-empty tokens". -/
def spaceSpec (s : JSString) : Nat := countWords false s

/-- The code units whose lower-case form can contain a Basic Latin letter:
Basic Latin itself, U+0130 and U+212A. -/
def lowersToLatin (u : Nat) : Bool :=
  decide (u < 128) || decide (u = 0x0130) || decide (u = 0x212A)

/-- A concrete environment: SHA-256 as computed above, `toLowerCaseLatin`, and
the analyzers as the spec describes them. -/
def node : Env :=
  { toLowerCase := toLowerCaseLatin
    sha256Hex := sha256Hex
    palindromeChecker := palindromeCheckerSpec toLowerCaseLatin
    uniqueCharCount := uniqueCharCountSpec
    space := spaceSpec }

/-! ## Example requests -/

/-- A timestamp, as `new Date().toISOString()` gives it. -/
def exampleNow : JSString := utf16 "2025-10-20T12:00:00.000Z"

/-- The JSON body `{"value": s}`. -/
def bodyWith (s : String) : JSValue := .object [(utf16 "value", .string (utf16 s))]

/-- The store after `"level"` was posted to the empty store. -/
def storeLevel : Store := (postStrings node exampleNow [] (bodyWith "level")).2

/-- The store after `"level"` and then `"go"` were posted to the empty store. -/
def storeLevelGo : Store := (postStrings node exampleNow storeLevel (bodyWith "go")).2

/-- The request `POST /strings` with the parsed body `body`. -/
def postRequest (body : JSValue) : Request :=
  { method := .post, path := [utf16 "strings"], query := emptyQuery, nlQuery := none,
    body := body, now := exampleNow }

/-- The request `DELETE /strings/<value>`. -/
def deleteRequest (value : String) : Request :=
  { method := .delete, path := [utf16 "strings", utf16 value], query := emptyQuery,
    nlQuery := none, body := .object [], now := exampleNow }

/-! # Theorems -/

/-! ## The store -/

theorem Store.get_cons (k hash : JSString) (r : StringRecord) (rest : Store) :
    Store.get ((k, r) :: rest) hash = if k = hash then some r else Store.get rest hash := rfl

theorem Store.set_cons (k hash : JSString) (r result : StringRecord) (rest : Store) :
    Store.set ((k, r) :: rest) hash result =
      if k = hash then (k, result) :: rest else (k, r) :: Store.set rest hash result := rfl

theorem Store.delete_cons (k hash : JSString) (r : StringRecord) (rest : Store) :
    Store.delete ((k, r) :: rest) hash =
      if k = hash then Store.delete rest hash else (k, r) :: Store.delete rest hash := by
  by_cases hk : k = hash <;> simp [Store.delete, List.filter_cons, hk]

theorem Store.get_set_self (database : Store) (hash : JSString) (result : StringRecord) :
    (database.set hash result).get hash = some result := by
  induction database with
  | nil => simp [Store.set, Store.get]
  | cons e rest ih =>
    obtain ⟨k, r⟩ := e
    rw [Store.set_cons]
    by_cases hk : k = hash
    · rw [if_pos hk, Store.get_cons, if_pos hk]
    · rw [if_neg hk, Store.get_cons, if_neg hk, ih]

theorem Store.get_set_ne (database : Store) (hash key : JSString) (result : StringRecord)
    (hne : key ≠ hash) : (database.set hash result).get key = database.get key := by
  induction database with
  | nil =>
    have : ¬ hash = key := fun h => hne h.symm
    simp [Store.set, Store.get, this]
  | cons e rest ih =>
    obtain ⟨k, r⟩ := e
    rw [Store.set_cons]
    by_cases hk : k = hash
    · have hkey : ¬ k = key := fun h => hne (h ▸ hk)
      rw [if_pos hk, Store.get_cons, Store.get_cons, if_neg hkey, if_neg hkey]
    · rw [if_neg hk, Store.get_cons, Store.get_cons, ih]

theorem Store.get_delete_self (database : Store) (hash : JSString) :
    (database.delete hash).get hash = none := by
  induction database with
  | nil => rfl
  | cons e rest ih =>
    obtain ⟨k, r⟩ := e
    rw [Store.delete_cons]
    by_cases hk : k = hash
    · rw [if_pos hk, ih]
    · rw [if_neg hk, Store.get_cons, if_neg hk, ih]

theorem Store.get_delete_ne (database : Store) (hash key : JSString) (hne : key ≠ hash) :
    (database.delete hash).get key = database.get key := by
  induction database with
  | nil => rfl
  | cons e rest ih =>
    obtain ⟨k, r⟩ := e
    rw [Store.delete_cons]
    by_cases hk : k = hash
    · have hkey : ¬ k = key := fun h => hne (h ▸ hk)
      rw [if_pos hk, ih, Store.get_cons, if_neg hkey]
    · rw [if_neg hk, Store.get_cons, Store.get_cons, ih]

theorem Store.get_eq_none_iff (database : Store) (hash : JSString) :
    database.get hash = none ↔ hash ∉ database.keys := by
  induction database with
  | nil => simp [Store.get, Store.keys]
  | cons e rest ih =>
    obtain ⟨k, r⟩ := e
    rw [Store.get_cons]
    by_cases hk : k = hash
    · simp [Store.keys, hk]
    · have : ¬ hash = k := fun h => hk h.symm
      rw [if_neg hk, ih]
      simp [Store.keys, this]

theorem Store.delete_of_get_none (database : Store) (hash : JSString)
    (h : database.get hash = none) : database.delete hash = database := by
  induction database with
  | nil => rfl
  | cons e rest ih =>
    obtain ⟨k, r⟩ := e
    rw [Store.get_cons] at h
    by_cases hk : k = hash
    · rw [if_pos hk] at h
      exact absurd h (by simp)
    · rw [if_neg hk] at h
      rw [Store.delete_cons, if_neg hk, ih h]

theorem Store.keys_delete (database : Store) (hash : JSString) (hwf : database.WF) :
    (database.delete hash).keys = database.keys.erase hash := by
  induction database with
  | nil => rfl
  | cons e rest ih =>
    obtain ⟨k, r⟩ := e
    have hwf' : Store.WF rest := (List.nodup_cons.mp hwf).2
    have hk_notin : k ∉ Store.keys rest := (List.nodup_cons.mp hwf).1
    rw [Store.delete_cons]
    by_cases hk : k = hash
    · subst hk
      have hget : Store.get rest k = none := (Store.get_eq_none_iff rest k).mpr hk_notin
      rw [if_pos rfl, Store.delete_of_get_none rest k hget]
      simp [Store.keys]
    · rw [if_neg hk]
      have ih' := ih hwf'
      simp only [Store.keys] at ih' ⊢
      rw [List.map_cons, List.map_cons, ih']
      simp [List.erase_cons, hk]

/-! ## `POST /strings`, lookup and deletion -/

/-- The handler on a body whose first property value is the string `s`. -/
theorem postStrings_of_string (env : Env) (now : JSString) (database : Store) (data : JSValue)
    (s : JSString) (rest : List JSValue) (hbody : objectValues data = some (.string s :: rest)) :
    postStrings env now database data =
      if (database.get (env.sha256Hex s)).isSome then
        (.respond 409 (.error "String already exists in the system"), database)
      else
        (.respond 201 (.record (buildResult env now s (env.sha256Hex s))),
          database.set (env.sha256Hex s) (buildResult env now s (env.sha256Hex s))) := by
  simp [postStrings, hbody, isNullish, asString, isUndefined]

/-- The handler on a body whose first property value is not a string: an
exception leaves the handler and the store is as before. -/
theorem postStrings_of_not_string (env : Env) (now : JSString) (database : Store)
    (data : JSValue)
    (hbody : ∀ values, objectValues data = some values → asString (values.headD .undefined) = none) :
    ∃ e, postStrings env now database data = (.throws e, database) := by
  unfold postStrings
  cases hv : objectValues data with
  | none => exact ⟨_, rfl⟩
  | some values =>
    have h := hbody values hv
    simp only []
    generalize values.headD JSValue.undefined = input at h
    cases input with
    | string s => simp [asString] at h
    | undefined => exact ⟨_, rfl⟩
    | null => exact ⟨_, rfl⟩
    | bool b => exact ⟨_, rfl⟩
    | number m e => exact ⟨_, rfl⟩
    | array items => exact ⟨_, rfl⟩
    | object props => exact ⟨_, rfl⟩

/-- Every body either has a string as its first property value or is covered
by `postStrings_of_not_string`. -/
theorem body_cases (data : JSValue) :
    (∃ s rest, objectValues data = some (.string s :: rest)) ∨
    (∀ values, objectValues data = some values → asString (values.headD .undefined) = none) := by
  cases hv : objectValues data with
  | none => exact Or.inr (fun values h => by simp at h)
  | some values =>
    cases values with
    | nil => exact Or.inr (fun values h => by cases h; rfl)
    | cons v rest =>
      cases v with
      | string s => exact Or.inl ⟨s, rest, rfl⟩
      | undefined => exact Or.inr (fun values h => by cases h; rfl)
      | null => exact Or.inr (fun values h => by cases h; rfl)
      | bool b => exact Or.inr (fun values h => by cases h; rfl)
      | number m e => exact Or.inr (fun values h => by cases h; rfl)
      | array items => exact Or.inr (fun values h => by cases h; rfl)
      | object props => exact Or.inr (fun values h => by cases h; rfl)

/-- C2, the code at the failing inputs: on the empty body `{}` (no first
property value) and on `{"value": 5}` (a first value that is not a string) an
exception leaves the `POST /strings` handler, and no body at all is answered
with 400 or 422: lines 20 and 21 read `input.length` and hash `input` before
the checks of lines 24 and 27 can run. -/
theorem postStrings_validation_unreachable (env : Env) (now : JSString) (database : Store) :
    postStrings env now database (.object []) = (.throws "TypeError", database)
    ∧ postStrings env now database (.object [(utf16 "value", .number 5 0)])
        = (.throws "TypeError [ERR_INVALID_ARG_TYPE]", database)
    ∧ ∀ data, (postStrings env now database data).1.status ≠ some 400
        ∧ (postStrings env now database data).1.status ≠ some 422 := by
  refine ⟨rfl, rfl, fun data => ?_⟩
  rcases body_cases data with ⟨s, rest, h⟩ | h
  · rw [postStrings_of_string env now database data s rest h]
    split <;> simp [Outcome.status]
  · obtain ⟨e, he⟩ := postStrings_of_not_string env now database data h
    rw [he]
    simp [Outcome.status]

/-- C3: a `POST /strings` of `s` (a body whose first property value is the
string `s`) when a record is stored under `contentHash(s)` is answered 409 and
leaves the store as it was; and from any store, posting `s` a second time is
answered 409 and changes nothing. -/
theorem post_duplicate_rejected (env : Env) (now now' : JSString) (database : Store)
    (data : JSValue) (s : JSString) (rest : List JSValue)
    (hbody : objectValues data = some (.string s :: rest)) :
    ((database.get (env.sha256Hex s)).isSome = true →
      postStrings env now database data =
        (.respond 409 (.error "String already exists in the system"), database))
    ∧ postStrings env now' (postStrings env now database data).2 data =
        (.respond 409 (.error "String already exists in the system"),
          (postStrings env now database data).2) := by
  have hpost := postStrings_of_string env now database data s rest hbody
  refine ⟨fun hsome => by rw [hpost, if_pos hsome], ?_⟩
  rw [postStrings_of_string env now' _ data s rest hbody]
  have hstored : ((postStrings env now database data).2.get (env.sha256Hex s)).isSome = true := by
    rw [hpost]
    by_cases hsome : (database.get (env.sha256Hex s)).isSome = true
    · rw [if_pos hsome]; exact hsome
    · rw [if_neg hsome, Store.get_set_self]; rfl
  rw [if_pos hstored]

/-- C4: `DELETE /strings/:string_value` is answered 404 with the store as it
was when nothing is stored under `contentHash(value)`; otherwise it is answered
204, the key is gone, every other key keeps its record and the listing keeps
its order, one key shorter; deleting the same value again is answered 404. -/
theorem delete_contract (env : Env) (database : Store) (string_value : JSString) :
    (database.get (env.sha256Hex string_value) = none →
      deleteString env database string_value =
        (.respond 404 (.error "String does not exist in the system"), database))
    ∧ ((database.get (env.sha256Hex string_value)).isSome = true →
        (deleteString env database string_value).1 = .respond 204 .empty
        ∧ (deleteString env database string_value).2.get (env.sha256Hex string_value) = none
        ∧ (∀ key, key ≠ env.sha256Hex string_value →
            (deleteString env database string_value).2.get key = database.get key)
        ∧ List.Sublist (deleteString env database string_value).2 database
        ∧ (database.WF →
            (deleteString env database string_value).2.keys
              = database.keys.erase (env.sha256Hex string_value)
            ∧ (deleteString env database string_value).2.length + 1 = database.length))
    ∧ (deleteString env (deleteString env database string_value).2 string_value).1 =
        .respond 404 (.error "String does not exist in the system") := by
  refine ⟨fun hnone => by simp [deleteString, hnone], fun hsome => ?_, ?_⟩
  · obtain ⟨r, hr⟩ := Option.isSome_iff_exists.mp hsome
    have hdel : deleteString env database string_value =
        (.respond 204 .empty, database.delete (env.sha256Hex string_value)) := by
      simp [deleteString, hr]
    rw [hdel]
    refine ⟨rfl, Store.get_delete_self _ _, fun key hne => Store.get_delete_ne _ _ _ hne,
      List.filter_sublist _, fun hwf => ?_⟩
    have hkeys := Store.keys_delete database (env.sha256Hex string_value) hwf
    refine ⟨hkeys, ?_⟩
    have hmem : env.sha256Hex string_value ∈ database.keys := by
      by_contra hnot
      rw [(Store.get_eq_none_iff _ _).mpr hnot] at hr
      exact absurd hr (by simp)
    have hlen := congrArg List.length hkeys
    rw [List.length_erase_of_mem hmem] at hlen
    have hpos : 0 < database.keys.length := List.length_pos_of_mem hmem
    simp only [Store.keys, List.length_map] at hlen hpos
    show (database.delete (env.sha256Hex string_value)).length + 1 = database.length
    omega
  · cases hget : database.get (env.sha256Hex string_value) with
    | none => simp [deleteString, hget]
    | some r => simp [deleteString, hget, Store.get_delete_self]

/-- The handlers on their parameter: after the POST handler answered 201 for
`s`, the lookup handler given `s` answers 200 with the record the POST
returned; after the delete handler answered 204 for a value, the lookup handler
given that value answers 404; and the lookup handler answers with what the
store holds under the digest of its parameter. -/
theorem handlers_roundtrip (env : Env) (now : JSString) (database : Store)
    (data : JSValue) (s : JSString) (rest : List JSValue)
    (hbody : objectValues data = some (.string s :: rest))
    (hcreated : (postStrings env now database data).1.status = some 201) :
    (∃ r, (postStrings env now database data).1 = .respond 201 (.record r)
        ∧ r.value = s ∧ r.id = env.sha256Hex s
        ∧ getString env (postStrings env now database data).2 s =
            (.respond 200 (.record r), (postStrings env now database data).2))
    ∧ (∀ (db : Store) (value : JSString),
        (deleteString env db value).1.status = some 204 →
        getString env (deleteString env db value).2 value =
          (.respond 404 (.error "String does not exist in the system"),
            (deleteString env db value).2))
    ∧ (∀ (db : Store) (value : JSString),
        (∀ r, getString env db value = (.respond 200 (.record r), db)
            ↔ db.get (env.sha256Hex value) = some r)
        ∧ (getString env db value =
              (.respond 404 (.error "String does not exist in the system"), db)
            ↔ db.get (env.sha256Hex value) = none)) := by
  have hpost := postStrings_of_string env now database data s rest hbody
  refine ⟨?_, ?_, ?_⟩
  · rw [hpost] at hcreated ⊢
    by_cases hsome : (database.get (env.sha256Hex s)).isSome = true
    · rw [if_pos hsome] at hcreated
      simp [Outcome.status] at hcreated
    · rw [if_neg hsome]
      refine ⟨_, rfl, rfl, rfl, ?_⟩
      simp [getString, Store.get_set_self]
  · intro db value hdel
    cases hget : db.get (env.sha256Hex value) with
    | none => simp [deleteString, hget, Outcome.status] at hdel
    | some r => simp [deleteString, hget, getString, Store.get_delete_self]
  · intro db value
    cases hget : db.get (env.sha256Hex value) with
    | none => simp [getString, hget]
    | some r => simp [getString, hget]

/-- C3 at a concrete input: `"level"` posted to the store that already holds
it is answered 409. -/
theorem post_duplicate_rejected_witness :
    objectValues (bodyWith "level") = some [.string (utf16 "level")]
    ∧ (storeLevel.get (node.sha256Hex (utf16 "level"))).isSome = true
    ∧ postStrings node exampleNow storeLevel (bodyWith "level") =
        (.respond 409 (.error "String already exists in the system"), storeLevel) :=
  ⟨rfl, by decide!,
    (post_duplicate_rejected node exampleNow exampleNow storeLevel (bodyWith "level")
      (utf16 "level") [] rfl).1 (by decide!)⟩

/-- C4 at concrete inputs: deleting `"go"` from the empty store is answered
404; deleting `"level"` from the store holding `"level"` and `"go"` is
answered 204 and leaves the key of `"go"` alone. -/
theorem delete_contract_witness :
    deleteString node [] (utf16 "go") =
        (.respond 404 (.error "String does not exist in the system"), [])
    ∧ (deleteString node storeLevelGo (utf16 "level")).1 = .respond 204 .empty
    ∧ (deleteString node storeLevelGo (utf16 "level")).2.keys
        = storeLevelGo.keys.erase (node.sha256Hex (utf16 "level"))
    ∧ (deleteString node storeLevelGo (utf16 "level")).2.length + 1 = storeLevelGo.length :=
  ⟨(delete_contract node [] (utf16 "go")).1 rfl,
    ((delete_contract node storeLevelGo (utf16 "level")).2.1 (by decide!)).1,
    (((delete_contract node storeLevelGo (utf16 "level")).2.1 (by decide!)).2.2.2.2
      (by unfold Store.WF; decide!)).1,
    (((delete_contract node storeLevelGo (utf16 "level")).2.1 (by decide!)).2.2.2.2
      (by unfold Store.WF; decide!)).2⟩

/-! ## `letterFrequency` -/

theorem not_lower_of_high (u : Nat) (h : isHighSurrogate u = true) : isLowerAZ u = false := by
  simp only [isHighSurrogate, Bool.and_eq_true, decide_eq_true_eq] at h
  simp only [isLowerAZ, Bool.and_eq_false_iff, decide_eq_false_iff_not]
  omega

theorem not_lower_of_low (u : Nat) (h : isLowSurrogate u = true) : isLowerAZ u = false := by
  simp only [isLowSurrogate, Bool.and_eq_true, decide_eq_true_eq] at h
  simp only [isLowerAZ, Bool.and_eq_false_iff, decide_eq_false_iff_not]
  omega

theorem ascii_of_lower (u : Nat) (h : isLowerAZ u = true) : u < 128 := by
  simp only [isLowerAZ, Bool.and_eq_true, decide_eq_true_eq] at h
  omega

/-- The strings of the iterator that pass `/[a-z]/` are the letters of the
string, one unit each, in order. -/
theorem filter_codePointsFrom (pending : Option Nat) (s : JSString)
    (hp : ∀ h, pending = some h → isHighSurrogate h = true) :
    (codePointsFrom pending s).filter testLowerAZ
      = (s.filter isLowerAZ).map (fun u => [u]) := by
  induction s generalizing pending with
  | nil =>
    cases pending with
    | none => rfl
    | some h =>
      have := not_lower_of_high h (hp h rfl)
      simp [codePointsFrom, testLowerAZ, this]
  | cons u tl ih =>
    cases pending with
    | none =>
      by_cases hu : isHighSurrogate u = true
      · have hl := not_lower_of_high u hu
        have := ih (some u) (fun h hh => by cases hh; exact hu)
        simp [codePointsFrom, hu, hl, this]
      · have := ih none (fun h hh => by cases hh)
        by_cases hl : isLowerAZ u = true
        · simp [codePointsFrom, hu, hl, this, testLowerAZ]
        · simp [codePointsFrom, hu, hl, this, testLowerAZ]
    | some h =>
      have hh := not_lower_of_high h (hp h rfl)
      by_cases hlow : isLowSurrogate u = true
      · have hl := not_lower_of_low u hlow
        have := ih none (fun h hh => by cases hh)
        simp [codePointsFrom, hlow, hl, hh, this, testLowerAZ]
      · by_cases hu : isHighSurrogate u = true
        · have hl := not_lower_of_high u hu
          have := ih (some u) (fun h hh => by cases hh; exact hu)
          simp [codePointsFrom, hlow, hu, hl, hh, this, testLowerAZ]
        · have := ih none (fun h hh => by cases hh)
          by_cases hl : isLowerAZ u = true
          · simp [codePointsFrom, hlow, hu, hl, hh, this, testLowerAZ]
          · simp [codePointsFrom, hlow, hu, hl, hh, this, testLowerAZ]

theorem foldl_if_eq_foldl_filter {α β : Type} (p : α → Bool) (f : β → α → β) (l : List α)
    (init : β) :
    l.foldl (fun acc x => if p x then f acc x else acc) init = (l.filter p).foldl f init := by
  induction l generalizing init with
  | nil => rfl
  | cons x xs ih =>
    by_cases hx : p x = true
    · simp [List.filter_cons, hx, ih]
    · simp [List.filter_cons, hx, ih]

/-- The loop of `letterFrequency` only sees the letters `a`..`z` of the
lower-cased string. -/
theorem tally_eq_tallyLetters (cleaned : JSString) :
    tally cleaned = tallyLetters [] (cleaned.filter isLowerAZ) := by
  unfold tally tallyLetters codePoints
  rw [foldl_if_eq_foldl_filter testLowerAZ
      (fun (freq : FreqMap) char => freq.set char (freq.getOrZero char + 1)),
    filter_codePointsFrom none cleaned (fun h hh => by cases hh), List.foldl_map]

theorem FreqMap.lookup_cons (k key : JSString) (v : Nat) (rest : FreqMap) :
    FreqMap.get ((k, v) :: rest) key = if k = key then some v else FreqMap.get rest key := rfl

theorem FreqMap.update_cons (k key : JSString) (w v : Nat) (rest : FreqMap) :
    FreqMap.set ((k, w) :: rest) key v =
      if k = key then (k, v) :: rest else (k, w) :: FreqMap.set rest key v := rfl

theorem FreqMap.get_after_set (freq : FreqMap) (key : JSString) (v : Nat) :
    (freq.set key v).get key = some v := by
  induction freq with
  | nil => simp [FreqMap.set, FreqMap.get]
  | cons e rest ih =>
    obtain ⟨k, w⟩ := e
    rw [FreqMap.update_cons]
    by_cases hk : k = key
    · rw [if_pos hk, FreqMap.lookup_cons, if_pos hk]
    · rw [if_neg hk, FreqMap.lookup_cons, if_neg hk, ih]

theorem FreqMap.get_after_set_other (freq : FreqMap) (key other : JSString) (v : Nat)
    (hne : other ≠ key) : (freq.set key v).get other = freq.get other := by
  induction freq with
  | nil =>
    have : ¬ key = other := fun h => hne h.symm
    simp [FreqMap.set, FreqMap.get, this]
  | cons e rest ih =>
    obtain ⟨k, w⟩ := e
    rw [FreqMap.update_cons]
    by_cases hk : k = key
    · have hko : ¬ k = other := fun h => hne (h ▸ hk)
      rw [if_pos hk, FreqMap.lookup_cons, FreqMap.lookup_cons, if_neg hko, if_neg hko]
    · rw [if_neg hk, FreqMap.lookup_cons, FreqMap.lookup_cons, ih]

theorem FreqMap.keys_set (freq : FreqMap) (key : JSString) (v : Nat) :
    (freq.set key v).map Prod.fst =
      if key ∈ freq.map Prod.fst then freq.map Prod.fst else freq.map Prod.fst ++ [key] := by
  induction freq with
  | nil => simp [FreqMap.set]
  | cons e rest ih =>
    obtain ⟨k, w⟩ := e
    rw [FreqMap.update_cons]
    by_cases hk : k = key
    · subst hk
      simp
    · have hkk : ¬ key = k := fun h => hk h.symm
      rw [if_neg hk, List.map_cons, ih]
      by_cases hmem : key ∈ List.map Prod.fst rest
      · simp [hmem]
      · simp [hmem, hkk]

theorem FreqMap.nodup_set (freq : FreqMap) (key : JSString) (v : Nat)
    (h : (freq.map Prod.fst).Nodup) : ((freq.set key v).map Prod.fst).Nodup := by
  rw [FreqMap.keys_set]
  by_cases hmem : key ∈ freq.map Prod.fst
  · rw [if_pos hmem]; exact h
  · rw [if_neg hmem]
    exact List.Nodup.append h (List.nodup_singleton key) (by simpa using hmem)

theorem FreqMap.mem_iff_get (freq : FreqMap) (h : (freq.map Prod.fst).Nodup) (key : JSString)
    (n : Nat) : (key, n) ∈ freq ↔ freq.get key = some n := by
  induction freq with
  | nil => simp [FreqMap.get]
  | cons e rest ih =>
    obtain ⟨k, w⟩ := e
    have hnd := List.nodup_cons.mp h
    rw [FreqMap.lookup_cons, List.mem_cons]
    by_cases hk : k = key
    · subst hk
      rw [if_pos rfl]
      constructor
      · rintro (heq | hmem)
        · cases heq; rfl
        · exact absurd (List.mem_map_of_mem Prod.fst hmem) hnd.1
      · intro heq
        cases heq
        exact Or.inl rfl
    · rw [if_neg hk, ← ih hnd.2]
      constructor
      · rintro (heq | hmem)
        · cases heq; exact absurd rfl hk
        · exact hmem
      · exact Or.inr

theorem FreqMap.getOrZero_eq (freq : FreqMap) (key : JSString) :
    freq.getOrZero key = (freq.get key).getD 0 := by
  unfold FreqMap.getOrZero
  cases freq.get key with
  | none => rfl
  | some v => by_cases hv : v = 0 <;> simp [hv]

theorem tallyLetters_cons (freq : FreqMap) (u : Nat) (letters : List Nat) :
    tallyLetters freq (u :: letters)
      = tallyLetters (freq.set [u] (freq.getOrZero [u] + 1)) letters := rfl

/-- The counter of a letter after the loop: what it was, plus the number of
occurrences. -/
theorem get_tallyLetters (freq : FreqMap) (letters : List Nat) (u : Nat) :
    (tallyLetters freq letters).get [u] =
      if letters.count u = 0 then freq.get [u]
      else some ((freq.get [u]).getD 0 + letters.count u) := by
  induction letters generalizing freq with
  | nil => simp [tallyLetters]
  | cons v rest ih =>
    rw [tallyLetters_cons, ih, FreqMap.getOrZero_eq]
    by_cases huv : v = u
    · subst huv
      rw [FreqMap.get_after_set, List.count_cons_self]
      by_cases hc : List.count v rest = 0
      · simp [hc]
      · simp [hc]; omega
    · have hne : ([u] : JSString) ≠ [v] := by
        intro h; exact huv (List.singleton_inj.mp h).symm
      rw [FreqMap.get_after_set_other _ _ _ _ hne, List.count_cons_of_ne (fun h => huv h.symm)]

theorem keys_tallyLetters (freq : FreqMap) (letters : List Nat) (key : JSString)
    (hkey : key ∈ (tallyLetters freq letters).map Prod.fst) :
    key ∈ freq.map Prod.fst ∨ ∃ u ∈ letters, key = [u] := by
  induction letters generalizing freq with
  | nil => exact Or.inl hkey
  | cons v rest ih =>
    rw [tallyLetters_cons] at hkey
    rcases ih _ hkey with h | ⟨u, hu, hk⟩
    · rw [FreqMap.keys_set] at h
      by_cases hmem : [v] ∈ freq.map Prod.fst
      · rw [if_pos hmem] at h; exact Or.inl h
      · rw [if_neg hmem, List.mem_append, List.mem_singleton] at h
        rcases h with h | h
        · exact Or.inl h
        · exact Or.inr ⟨v, List.mem_cons_self _ _, h⟩
    · exact Or.inr ⟨u, List.mem_cons_of_mem _ hu, hk⟩

theorem nodup_tallyLetters (freq : FreqMap) (letters : List Nat)
    (h : (freq.map Prod.fst).Nodup) : ((tallyLetters freq letters).map Prod.fst).Nodup := by
  induction letters generalizing freq with
  | nil => exact h
  | cons v rest ih =>
    rw [tallyLetters_cons]
    exact ih _ (FreqMap.nodup_set _ _ _ h)

/-- The entries of the tally of a string: one per letter `a`..`z` that occurs,
with its number of occurrences. -/
theorem mem_tally_iff (cleaned : JSString) (key : JSString) (n : Nat) :
    (key, n) ∈ tally cleaned ↔
      ∃ u, key = [u] ∧ isLowerAZ u = true ∧ u ∈ cleaned ∧ n = cleaned.count u := by
  rw [tally_eq_tallyLetters]
  have hnd := nodup_tallyLetters [] (cleaned.filter isLowerAZ) List.nodup_nil
  rw [FreqMap.mem_iff_get _ hnd]
  constructor
  · intro hget
    have hkey : key ∈ (tallyLetters [] (cleaned.filter isLowerAZ)).map Prod.fst :=
      List.mem_map_of_mem Prod.fst ((FreqMap.mem_iff_get _ hnd key n).mpr hget)
    rcases keys_tallyLetters [] _ key hkey with h | ⟨u, hu, hk⟩
    · simp at h
    · subst hk
      have hu' := List.mem_filter.mp hu
      refine ⟨u, rfl, hu'.2, hu'.1, ?_⟩
      rw [get_tallyLetters, if_neg (by rw [List.count_eq_zero]; exact fun h => h hu)] at hget
      rw [List.count_filter hu'.2] at hget
      simpa [FreqMap.get] using hget.symm
  · rintro ⟨u, rfl, hlow, hmem, hn⟩
    have hu : u ∈ cleaned.filter isLowerAZ := List.mem_filter.mpr ⟨hmem, hlow⟩
    rw [get_tallyLetters, if_neg (by rw [List.count_eq_zero]; exact fun h => h hu),
      List.count_filter hlow, hn]
    simp [FreqMap.get]

/-- C6: `letterFrequency(s)` has each key once; its entries are exactly the
pairs of a letter `a`..`z` that occurs in the lower-cased `s` and the number of
its occurrences there, so no other key appears and no count is zero; and
`letterFrequency("AAbb1! ")` is `{a: 2, b: 2}` (given that `"AAbb1! "`
lower-cases to `"aabb1! "`). -/
theorem letterFrequency_spec (env : Env) (s : JSString) :
    ((letterFrequency env s).map Prod.fst).Nodup
    ∧ (∀ key n, (key, n) ∈ letterFrequency env s ↔
        ∃ u, key = [u] ∧ (97 ≤ u ∧ u ≤ 122) ∧ u ∈ env.toLowerCase s
          ∧ n = (env.toLowerCase s).count u)
    ∧ (∀ key n, (key, n) ∈ letterFrequency env s → 0 < n)
    ∧ (env.toLowerCase (utf16 "AAbb1! ") = utf16 "aabb1! " →
        letterFrequency env (utf16 "AAbb1! ") = [(utf16 "a", 2), (utf16 "b", 2)]) := by
  have hiff : ∀ key n, (key, n) ∈ letterFrequency env s ↔
        ∃ u, key = [u] ∧ (97 ≤ u ∧ u ≤ 122) ∧ u ∈ env.toLowerCase s
          ∧ n = (env.toLowerCase s).count u := by
    intro key n
    unfold letterFrequency
    rw [mem_tally_iff]
    simp [isLowerAZ]
  refine ⟨?_, hiff, ?_, ?_⟩
  · unfold letterFrequency
    rw [tally_eq_tallyLetters]
    exact nodup_tallyLetters [] _ List.nodup_nil
  · intro key n hmem
    obtain ⟨u, _, _, hu, hn⟩ := (hiff key n).mp hmem
    rw [hn]
    exact List.count_pos_iff.mpr hu
  · intro hlower
    unfold letterFrequency
    rw [hlower]
    decide

/-- C6 at a concrete environment, where `"AAbb1! "` lower-cases to `"aabb1! "`. -/
theorem letterFrequency_spec_witness :
    node.toLowerCase (utf16 "AAbb1! ") = utf16 "aabb1! "
    ∧ letterFrequency node (utf16 "AAbb1! ") = [(utf16 "a", 2), (utf16 "b", 2)] :=
  ⟨by decide, (letterFrequency_spec node (utf16 "AAbb1! ")).2.2.2 (by decide)⟩

/-- C7 as stated fails: the Kelvin sign U+212A and U+0130 are not ASCII, yet
`letterFrequency` counts them (`toLowerCase` turns them into `k` and `i`
followed by U+0307), while the strings with the non-ASCII characters removed
are empty and give the empty map. -/
theorem letterFrequency_counts_kelvin :
    letterFrequency node [0x212A] = [(utf16 "k", 1)]
    ∧ letterFrequency node [0x0130] = [(utf16 "i", 1)]
    ∧ removeNonAscii [0x212A] = []
    ∧ letterFrequency node [0x212A] ≠ letterFrequency node (removeNonAscii [0x212A])
    ∧ letterFrequency node [0x0130] ≠ letterFrequency node (removeNonAscii [0x0130]) := by
  decide

theorem filter_lower_removeNonAscii (s : JSString) :
    (removeNonAscii s).filter isLowerAZ = s.filter isLowerAZ := by
  unfold removeNonAscii
  rw [List.filter_filter]
  apply List.filter_congr
  intro u _
  by_cases hl : isLowerAZ u = true
  · have := ascii_of_lower u hl
    simp [hl, this]
  · simp [hl]

theorem filter_lower_flatMap_lowerUnit (s : JSString) :
    ((s.filter lowersToLatin).flatMap lowerUnit).filter isLowerAZ
      = (s.flatMap lowerUnit).filter isLowerAZ := by
  induction s with
  | nil => rfl
  | cons u rest ih =>
    by_cases hu : lowersToLatin u = true
    · simp only [List.filter_cons, hu, if_true, List.flatMap_cons, List.filter_append, ih]
    · have hskip : (lowerUnit u).filter isLowerAZ = [] := by
        simp only [lowersToLatin, Bool.or_eq_true, decide_eq_true_eq, not_or] at hu
        have h1 : ¬ (65 ≤ u ∧ u ≤ 90) := by omega
        have h4 : ¬ (97 ≤ u ∧ u ≤ 122) := by omega
        simp [lowerUnit, h1, hu.1.2, hu.2, isLowerAZ, h4]
      simp only [List.filter_cons, hu, List.flatMap_cons, List.filter_append, hskip,
        List.nil_append]
      simpa using ih

/-- C7, amended: what `letterFrequency` skips are the non-ASCII characters of
the lower-cased string: `letterFrequency(s)` is the tally of the lower-cased
`s` with every non-ASCII character removed, so a string whose lower-cased form
has only non-ASCII characters yields the empty map; and when `toLowerCase`
produces the letters `a`..`z` as Unicode prescribes (from Basic Latin, U+0130
and U+212A only), `letterFrequency(s)` equals `letterFrequency` of `s` with
every non-ASCII character other than U+0130 and U+212A removed. -/
theorem letterFrequency_skips_lowered_non_ascii (env : Env) (s : JSString) :
    letterFrequency env s = tally (removeNonAscii (env.toLowerCase s))
    ∧ ((∀ u ∈ env.toLowerCase s, 128 ≤ u) → letterFrequency env s = [])
    ∧ ((∀ t, (env.toLowerCase t).filter isLowerAZ = (t.flatMap lowerUnit).filter isLowerAZ) →
        letterFrequency env s = letterFrequency env (s.filter lowersToLatin)) := by
  refine ⟨?_, ?_, ?_⟩
  · unfold letterFrequency
    rw [tally_eq_tallyLetters, tally_eq_tallyLetters, filter_lower_removeNonAscii]
  · intro hall
    unfold letterFrequency
    rw [tally_eq_tallyLetters]
    have : (env.toLowerCase s).filter isLowerAZ = [] := by
      rw [List.filter_eq_nil_iff]
      intro u hu hl
      have h1 := hall u hu
      have h2 := ascii_of_lower u hl
      omega
    rw [this]
    rfl
  · intro hconf
    unfold letterFrequency
    rw [tally_eq_tallyLetters, tally_eq_tallyLetters, hconf, hconf,
      filter_lower_flatMap_lowerUnit]

/-- C7 amended, at a concrete environment: U+00E9 lower-cases to itself and
yields the empty map, and `"aK"` followed by U+00E9 and the Kelvin sign has the
letter frequencies of `"aK"` followed by the Kelvin sign. -/
theorem letterFrequency_skips_lowered_non_ascii_witness :
    (∀ u ∈ node.toLowerCase [0xE9], 128 ≤ u)
    ∧ letterFrequency node [0xE9] = []
    ∧ letterFrequency node [97, 75, 0xE9, 0x212A] = letterFrequency node [97, 75, 0x212A] :=
  ⟨by decide,
    (letterFrequency_skips_lowered_non_ascii node [0xE9]).2.1 (by decide),
    (letterFrequency_skips_lowered_non_ascii node [97, 75, 0xE9, 0x212A]).2.2 (fun _ => rfl)⟩

/-! ## The filter of `GET /strings` -/

theorem startsWith_iff (hay needle : JSString) :
    startsWith hay needle = true ↔ needle <+: hay := by
  induction hay generalizing needle with
  | nil =>
    cases needle with
    | nil => simp [startsWith]
    | cons n ns => simp [startsWith]
  | cons h hs ih =>
    cases needle with
    | nil => simp [startsWith]
    | cons n ns =>
      simp only [startsWith, Bool.and_eq_true, decide_eq_true_eq, ih, List.cons_prefix_cons]
      constructor
      · rintro ⟨h1, h2⟩; exact ⟨h1.symm, h2⟩
      · rintro ⟨h1, h2⟩; exact ⟨h1.symm, h2⟩

theorem includes_iff (hay needle : JSString) :
    includes hay needle = true ↔ needle <:+: hay := by
  induction hay with
  | nil => simp [includes, startsWith_iff]
  | cons h hs ih =>
    simp only [includes, Bool.or_eq_true, startsWith_iff, ih, List.infix_cons_iff]

theorem validateInt_ok (message : String) (v : Option QueryValue) (x : Option JSNumber)
    (h : validateInt message v = .ok x) : x ≠ some .nan := by
  cases v with
  | none =>
    simp only [validateInt] at h
    cases h
    simp
  | some q =>
    simp only [validateInt] at h
    by_cases hn : (parseInt q.toStr).isNaN = true
    · simp [hn] at h
    · simp only [hn] at h
      cases h
      intro hx
      rw [Option.some.injEq] at hx
      rw [hx] at hn
      exact hn rfl

/-- A query passes validation when each parameter does, and `filters` has the
converted values. -/
theorem validateQuery_ok_iff (env : Env) (query : Query) (filters : Filters) :
    validateQuery env query = .ok filters ↔
      validatePalindrome query.is_palindrome = .ok filters.is_palindrome
      ∧ validateInt "min_length must be an integer" query.min_length = .ok filters.min_length
      ∧ validateInt "max_length must be an integer" query.max_length = .ok filters.max_length
      ∧ validateInt "word_count must be an integer" query.word_count = .ok filters.word_count
      ∧ validateCharacter env query.contains_character = .ok filters.contains_character := by
  obtain ⟨fp, fmin, fmax, fw, fc⟩ := filters
  unfold validateQuery
  cases validatePalindrome query.is_palindrome with
  | error e => simp
  | ok a =>
    cases validateInt "min_length must be an integer" query.min_length with
    | error e => simp
    | ok b =>
      cases validateInt "max_length must be an integer" query.max_length with
      | error e => simp
      | ok c =>
        cases validateInt "word_count must be an integer" query.word_count with
        | error e => simp
        | ok d =>
          cases validateCharacter env query.contains_character with
          | error e => simp
          | ok f => simp

/-- Validation never lets a `NaN` into `filters`. -/
theorem validateQuery_noNaN (env : Env) (query : Query) (filters : Filters)
    (h : validateQuery env query = .ok filters) : filters.NoNaN := by
  obtain ⟨_, h1, h2, h3, _⟩ := (validateQuery_ok_iff env query filters).mp h
  exact ⟨validateInt_ok _ _ _ h1, validateInt_ok _ _ _ h2, validateInt_ok _ _ _ h3⟩

theorem failsPalindrome_iff (filters : Filters) (p : Properties) :
    failsPalindrome filters p = false ↔ ∀ b ∈ filters.is_palindrome, p.is_palindrome = b := by
  unfold failsPalindrome
  cases filters.is_palindrome <;> simp

theorem failsMinLength_iff (filters : Filters) (p : Properties)
    (h : filters.min_length ≠ some .nan) :
    failsMinLength filters p = false ↔
      ∀ m ∈ filters.min_length, JSNumber.natGe p.length m = true := by
  unfold failsMinLength
  cases hm : filters.min_length with
  | none => simp
  | some m =>
    rw [hm] at h
    cases m <;> simp [JSNumber.natLt, JSNumber.natGe] at h ⊢

theorem failsMaxLength_iff (filters : Filters) (p : Properties)
    (h : filters.max_length ≠ some .nan) :
    failsMaxLength filters p = false ↔
      ∀ m ∈ filters.max_length, JSNumber.natLe p.length m = true := by
  unfold failsMaxLength
  cases hm : filters.max_length with
  | none => simp
  | some m =>
    rw [hm] at h
    cases m <;> simp [JSNumber.natGt, JSNumber.natLe] at h ⊢

theorem failsWordCount_iff (filters : Filters) (p : Properties)
    (h : filters.word_count ≠ some .nan) :
    failsWordCount filters p = false ↔
      ∀ w ∈ filters.word_count, JSNumber.natEq p.word_count w = true := by
  unfold failsWordCount
  cases hm : filters.word_count with
  | none => simp
  | some m =>
    rw [hm] at h
    cases m <;> simp [JSNumber.natNe, JSNumber.natEq] at h ⊢

theorem failsContains_iff (env : Env) (filters : Filters) (r : StringRecord) :
    failsContains env filters r = false ↔
      ∀ c ∈ filters.contains_character, c <:+: env.toLowerCase r.value := by
  unfold failsContains
  cases filters.contains_character with
  | none => simp
  | some c => simp [includes_iff]

/-- On a filter object without `NaN`, the callback of the handler decides the
predicate of the spec. -/
theorem matchesFilters_iff (env : Env) (filters : Filters) (r : StringRecord)
    (hn : filters.NoNaN) : matchesFilters env filters r = true ↔ filters.HoldsFor env r := by
  unfold Filters.HoldsFor
  rw [← failsPalindrome_iff, ← failsMinLength_iff _ _ hn.1, ← failsMaxLength_iff _ _ hn.2.1,
    ← failsWordCount_iff _ _ hn.2.2, ← failsContains_iff]
  unfold matchesFilters
  simp only []
  cases failsPalindrome filters r.properties <;> cases failsMinLength filters r.properties <;>
    cases failsMaxLength filters r.properties <;> cases failsWordCount filters r.properties <;>
    cases failsContains env filters r <;> simp

/-- C1: for every store and every query that passes validation, with
`filters` the validated filter set, `GET /strings` is answered 200 and its data
is the store listing filtered, in listing order, by "every present filter
holds" (the palindrome flag equal, `length >= min_length`,
`length <= max_length`, the word count equal, the lower-cased value containing
`contains_character`); and over a store listing "level" (length 5, a
palindrome) and then "go" (length 2), `min_length=5&is_palindrome=true` gives
exactly the record of "level". -/
theorem getStrings_filters (env : Env) (database : Store) (query : Query) (filters : Filters)
    (hvalid : validateQuery env query = .ok filters) :
    getStrings env database query =
      (.respond 200
        (.filtered (database.values.filter (fun r => decide (filters.HoldsFor env r)))
          (database.values.filter (fun r => decide (filters.HoldsFor env r))).length filters),
        database)
    ∧ ∀ (k1 k2 : JSString) (level go : StringRecord),
        level.properties.length = 5 → level.properties.is_palindrome = true →
        go.properties.length = 2 →
        getStrings env [(k1, level), (k2, go)] palindromeMin5 =
          (.respond 200 (.filtered [level] 1 palindromeMin5Filters), [(k1, level), (k2, go)]) := by
  have hfilter : ∀ (f : Filters), f.NoNaN →
      matchesFilters env f = fun r => decide (f.HoldsFor env r) := by
    intro f hf
    funext r
    rw [Bool.eq_iff_iff, matchesFilters_iff env f r hf]
    simp
  refine ⟨?_, ?_⟩
  · unfold getStrings
    rw [hvalid]
    simp only []
    rw [hfilter filters (validateQuery_noNaN env query filters hvalid)]
  · intro k1 k2 level go h5 hp h2
    have hq : validateQuery env palindromeMin5 = .ok palindromeMin5Filters := rfl
    unfold getStrings
    rw [hq]
    simp [Store.values, matchesFilters, failsPalindrome, failsMinLength, failsMaxLength,
      failsWordCount, failsContains, JSNumber.natLt, h5, hp, h2, palindromeMin5Filters]

/-- C1 at a concrete input: `?is_palindrome=true&min_length=5` passes
validation and, over the store built by posting "level" and "go", returns the
one record of "level". -/
theorem getStrings_filters_witness :
    validateQuery node palindromeMin5 = .ok palindromeMin5Filters
    ∧ storeLevelGo.values.map (fun r => r.value) = [utf16 "level", utf16 "go"]
    ∧ (getStrings node storeLevelGo palindromeMin5).1 =
        .respond 200
          (.filtered [buildResult node exampleNow (utf16 "level") (sha256Hex (utf16 "level"))] 1
            palindromeMin5Filters) :=
  ⟨rfl, by decide!,
    (congrArg Prod.fst
      (getStrings_filters node storeLevelGo palindromeMin5 palindromeMin5Filters rfl).1).trans
      (by decide!)⟩

/-! ## The natural-language rules -/

theorem firstMatch_eq_none_iff (attempt : JSString → Option JSString) (q : JSString) :
    firstMatch attempt q = none ↔ ∀ pre s, q = pre ++ s → attempt s = none := by
  induction q with
  | nil =>
    simp only [firstMatch]
    constructor
    · intro h pre s hq
      have := List.append_eq_nil.mp hq.symm
      rw [this.2]; exact h
    · intro h; exact h [] [] rfl
  | cons u rest ih =>
    simp only [firstMatch]
    constructor
    · intro h pre s hq
      cases hatt : attempt (u :: rest) with
      | some c => rw [hatt] at h; simp at h
      | none =>
        rw [hatt] at h
        simp only at h
        cases pre with
        | nil => simp only [List.nil_append] at hq; rw [← hq]; exact hatt
        | cons v pre' =>
          simp only [List.cons_append, List.cons.injEq] at hq
          exact (ih.mp h) pre' s hq.2
    · intro h
      rw [h [] (u :: rest) rfl]
      simp only
      exact ih.mpr (fun pre s hq => h (u :: pre) s (by rw [hq]; rfl))

/-- The leftmost match: an attempt that succeeds after `pre`, with every
attempt at an earlier position failing, is the result. -/
theorem firstMatch_eq_some (attempt : JSString → Option JSString) (pre s : JSString)
    (captured : JSString) (hhere : attempt s = some captured)
    (hfirst : ∀ pre' s', pre ++ s = pre' ++ s' → pre'.length < pre.length → attempt s' = none) :
    firstMatch attempt (pre ++ s) = some captured := by
  induction pre with
  | nil =>
    simp only [List.nil_append]
    cases s with
    | nil => simpa [firstMatch] using hhere
    | cons u rest => simp [firstMatch, hhere]
  | cons v pre' ih =>
    have h0 : attempt (v :: (pre' ++ s)) = none :=
      hfirst [] (v :: (pre' ++ s)) rfl (by simp)
    show (match attempt (v :: (pre' ++ s)) with
      | some captured => some captured
      | none => firstMatch attempt (pre' ++ s)) = some captured
    rw [h0]
    apply ih
    intro p s' hq hlen
    exact hfirst (v :: p) s' (by simp [hq]) (by simpa using hlen)

/-- Some attempt succeeds exactly when the leftmost match exists. -/
theorem firstMatch_isSome_iff (attempt : JSString → Option JSString) (q : JSString) :
    (firstMatch attempt q).isSome = true ↔ ∃ pre s, q = pre ++ s ∧ (attempt s).isSome = true := by
  rw [← Option.ne_none_iff_isSome, Ne, firstMatch_eq_none_iff]
  push_neg
  constructor
  · rintro ⟨pre, s, hq, hs⟩
    exact ⟨pre, s, hq, Option.ne_none_iff_isSome.mp hs⟩
  · rintro ⟨pre, s, hq, hs⟩
    exact ⟨pre, s, hq, Option.ne_none_iff_isSome.mpr hs⟩

theorem longerThanHere_isSome_iff (s : JSString) :
    (longerThanHere s).isSome = true ↔
      ∃ d post, isDigit d = true ∧ s = utf16 "longer than " ++ d :: post := by
  unfold longerThanHere
  constructor
  · intro h
    by_cases hs : startsWith s (utf16 "longer than ") = true
    · obtain ⟨t, ht⟩ := (startsWith_iff _ _).mp hs
      subst ht
      rw [if_pos hs, List.drop_left] at h
      cases t with
      | nil => simp at h
      | cons d post =>
        by_cases hd : isDigit d = true
        · exact ⟨d, post, hd, rfl⟩
        · simp [List.takeWhile_cons, hd] at h
    · rw [if_neg hs] at h
      simp at h
  · rintro ⟨d, post, hd, rfl⟩
    have hs : startsWith (utf16 "longer than " ++ d :: post) (utf16 "longer than ") = true :=
      (startsWith_iff _ _).mpr ⟨_, rfl⟩
    rw [if_pos hs, List.drop_left]
    simp [List.takeWhile_cons, hd]

theorem containingLetterHere_eq_some_iff (s : JSString) (letter : JSString) :
    containingLetterHere s = some letter ↔
      ∃ c post, isLowerAZ c = true ∧ letter = [c]
        ∧ s = utf16 "containing the letter " ++ c :: post := by
  unfold containingLetterHere
  constructor
  · intro h
    by_cases hs : startsWith s (utf16 "containing the letter ") = true
    · obtain ⟨t, ht⟩ := (startsWith_iff _ _).mp hs
      subst ht
      rw [if_pos hs, List.drop_left] at h
      cases t with
      | nil => simp at h
      | cons c post =>
        by_cases hc : isLowerAZ c = true
        · simp only [hc, if_true, Option.some.injEq] at h
          exact ⟨c, post, hc, h.symm, rfl⟩
        · simp [hc] at h
    · rw [if_neg hs] at h
      simp at h
  · rintro ⟨c, post, hc, rfl, rfl⟩
    have hs : startsWith (utf16 "containing the letter " ++ c :: post)
        (utf16 "containing the letter ") = true :=
      (startsWith_iff _ _).mpr ⟨_, rfl⟩
    rw [if_pos hs, List.drop_left]
    simp [hc]

/-- The pattern `/longer than (\d+)/` matches somewhere in `q` exactly when
`q.match` is not `null`. -/
theorem matchLongerThan_isSome_iff (q : JSString) :
    (matchLongerThan q).isSome = true ↔ ∃ pre, LongerThanAt q pre := by
  unfold matchLongerThan LongerThanAt
  rw [firstMatch_isSome_iff]
  constructor
  · rintro ⟨pre, s, hq, hs⟩
    obtain ⟨d, post, hd, hs'⟩ := (longerThanHere_isSome_iff s).mp hs
    exact ⟨pre, d, post, hd, by rw [hq, hs', List.append_assoc]⟩
  · rintro ⟨pre, d, post, hd, hq⟩
    exact ⟨pre, utf16 "longer than " ++ d :: post, by rw [hq, List.append_assoc],
      (longerThanHere_isSome_iff _).mpr ⟨d, post, hd, rfl⟩⟩

/-- The pattern `/containing the letter ([a-z])/` matches somewhere in `q`
exactly when `q.match` is not `null`. -/
theorem matchContainingLetter_isSome_iff (q : JSString) :
    (matchContainingLetter q).isSome = true ↔ ∃ pre c, ContainingLetterAt q pre c := by
  unfold matchContainingLetter ContainingLetterAt
  rw [firstMatch_isSome_iff]
  constructor
  · rintro ⟨pre, s, hq, hs⟩
    obtain ⟨letter, hl⟩ := Option.isSome_iff_exists.mp hs
    obtain ⟨c, post, hc, _, hs'⟩ := (containingLetterHere_eq_some_iff s letter).mp hl
    exact ⟨pre, c, post, hc, by rw [hq, hs', List.append_assoc]⟩
  · rintro ⟨pre, c, post, hc, hq⟩
    refine ⟨pre, utf16 "containing the letter " ++ c :: post, by rw [hq, List.append_assoc], ?_⟩
    rw [(containingLetterHere_eq_some_iff _ [c]).mpr ⟨c, post, hc, rfl, rfl⟩]
    rfl

theorem parseRules_is_palindrome (q : JSString) :
    (parseRules q).is_palindrome =
      if includes q (utf16 "palindromic") then some true else none := by
  unfold parseRules
  simp only []
  generalize includes q (utf16 "palindromic") = b1
  generalize includes q (utf16 "single word") = b2
  generalize includes q (utf16 "longer than") = b3
  generalize includes q (utf16 "containing the letter") = b4
  generalize includes q (utf16 "containing the first vowel") = b5
  generalize matchLongerThan q = m3
  generalize matchContainingLetter q = m4
  cases b1 <;> cases b2 <;> cases b3 <;> cases b4 <;> cases b5 <;> cases m3 <;> cases m4 <;> rfl

theorem parseRules_word_count (q : JSString) :
    (parseRules q).word_count =
      if includes q (utf16 "single word") then some (.finite 1) else none := by
  unfold parseRules
  simp only []
  generalize includes q (utf16 "palindromic") = b1
  generalize includes q (utf16 "single word") = b2
  generalize includes q (utf16 "longer than") = b3
  generalize includes q (utf16 "containing the letter") = b4
  generalize includes q (utf16 "containing the first vowel") = b5
  generalize matchLongerThan q = m3
  generalize matchContainingLetter q = m4
  cases b1 <;> cases b2 <;> cases b3 <;> cases b4 <;> cases b5 <;> cases m3 <;> cases m4 <;> rfl

theorem parseRules_max_length (q : JSString) : (parseRules q).max_length = none := by
  unfold parseRules
  simp only []
  generalize includes q (utf16 "palindromic") = b1
  generalize includes q (utf16 "single word") = b2
  generalize includes q (utf16 "longer than") = b3
  generalize includes q (utf16 "containing the letter") = b4
  generalize includes q (utf16 "containing the first vowel") = b5
  generalize matchLongerThan q = m3
  generalize matchContainingLetter q = m4
  cases b1 <;> cases b2 <;> cases b3 <;> cases b4 <;> cases b5 <;> cases m3 <;> cases m4 <;> rfl

theorem parseRules_min_length (q : JSString) :
    (parseRules q).min_length =
      if includes q (utf16 "longer than") then
        (matchLongerThan q).map (fun digits => (parseInt digits).addOne)
      else none := by
  unfold parseRules
  simp only []
  generalize includes q (utf16 "palindromic") = b1
  generalize includes q (utf16 "single word") = b2
  generalize includes q (utf16 "longer than") = b3
  generalize includes q (utf16 "containing the letter") = b4
  generalize includes q (utf16 "containing the first vowel") = b5
  generalize matchLongerThan q = m3
  generalize matchContainingLetter q = m4
  cases b1 <;> cases b2 <;> cases b3 <;> cases b4 <;> cases b5 <;> cases m3 <;> cases m4 <;> rfl

theorem parseRules_contains_character (q : JSString) :
    (parseRules q).contains_character =
      if includes q (utf16 "containing the first vowel") then some (utf16 "a")
      else if includes q (utf16 "containing the letter") then matchContainingLetter q
      else none := by
  unfold parseRules
  simp only []
  generalize includes q (utf16 "palindromic") = b1
  generalize includes q (utf16 "single word") = b2
  generalize includes q (utf16 "longer than") = b3
  generalize includes q (utf16 "containing the letter") = b4
  generalize includes q (utf16 "containing the first vowel") = b5
  generalize matchLongerThan q = m3
  generalize matchContainingLetter q = m4
  cases b1 <;> cases b2 <;> cases b3 <;> cases b4 <;> cases b5 <;> cases m3 <;> cases m4 <;> rfl

theorem includes_of_longerThanAt (q pre : JSString) (h : LongerThanAt q pre) :
    includes q (utf16 "longer than") = true := by
  obtain ⟨d, post, _, hq⟩ := h
  rw [includes_iff]
  refine ⟨pre, 32 :: d :: post, ?_⟩
  rw [hq]
  have : utf16 "longer than " = utf16 "longer than" ++ [32] := by decide
  rw [this]
  simp

theorem includes_of_containingLetterAt (q pre : JSString) (c : Nat)
    (h : ContainingLetterAt q pre c) : includes q (utf16 "containing the letter") = true := by
  obtain ⟨post, _, hq⟩ := h
  rw [includes_iff]
  refine ⟨pre, 32 :: c :: post, ?_⟩
  rw [hq]
  have : utf16 "containing the letter " = utf16 "containing the letter" ++ [32] := by decide
  rw [this]
  simp

theorem parseRules_min_length_isSome (q : JSString) :
    (parseRules q).min_length.isSome = true ↔ ∃ pre, LongerThanAt q pre := by
  rw [parseRules_min_length, ← matchLongerThan_isSome_iff]
  constructor
  · intro h
    by_cases hi : includes q (utf16 "longer than") = true
    · rw [if_pos hi] at h; simpa using h
    · rw [if_neg hi] at h; simp at h
  · intro h
    obtain ⟨pre, hpre⟩ := (matchLongerThan_isSome_iff q).mp h
    rw [if_pos (includes_of_longerThanAt q pre hpre)]
    simpa using h

theorem parseRules_contains_character_isSome (q : JSString) :
    (parseRules q).contains_character.isSome = true ↔
      utf16 "containing the first vowel" <:+: q ∨ ∃ pre c, ContainingLetterAt q pre c := by
  rw [parseRules_contains_character, ← matchContainingLetter_isSome_iff, ← includes_iff]
  by_cases hv : includes q (utf16 "containing the first vowel") = true
  · simp [hv]
  · rw [if_neg hv]
    by_cases hi : includes q (utf16 "containing the letter") = true
    · simp [hi, hv]
    · rw [if_neg hi]
      simp only [Option.isSome_none, Bool.false_eq_true, hv, false_or, false_iff]
      intro h
      obtain ⟨pre, c, hpre⟩ := (matchContainingLetter_isSome_iff q).mp h
      exact hi (includes_of_containingLetterAt q pre c hpre)

theorem parseRules_is_palindrome_none (q : JSString) :
    (parseRules q).is_palindrome = none ↔ ¬ utf16 "palindromic" <:+: q := by
  rw [parseRules_is_palindrome, ← includes_iff]
  cases includes q (utf16 "palindromic")
  · exact ⟨fun _ h => Bool.noConfusion h, fun _ => rfl⟩
  · exact ⟨fun h => Option.noConfusion h, fun h => absurd rfl h⟩

theorem parseRules_word_count_none (q : JSString) :
    (parseRules q).word_count = none ↔ ¬ utf16 "single word" <:+: q := by
  rw [parseRules_word_count, ← includes_iff]
  cases includes q (utf16 "single word")
  · exact ⟨fun _ h => Bool.noConfusion h, fun _ => rfl⟩
  · exact ⟨fun h => Option.noConfusion h, fun h => absurd rfl h⟩

theorem Filters.hasNoKeys_iff (filters : Filters) :
    filters.hasNoKeys = true ↔
      filters.is_palindrome = none ∧ filters.min_length = none ∧ filters.max_length = none
        ∧ filters.word_count = none ∧ filters.contains_character = none := by
  obtain ⟨a, b, c, d, e⟩ := filters
  cases a <;> cases b <;> cases c <;> cases d <;> cases e <;> simp [Filters.hasNoKeys]

theorem hasNoKeys_parseRules_iff (q : JSString) :
    (parseRules q).hasNoKeys = true ↔ NoRuleFires q := by
  have hmin : (parseRules q).min_length = none ↔ ¬ ∃ pre, LongerThanAt q pre := by
    rw [← parseRules_min_length_isSome, Option.not_isSome_iff_eq_none]
  have hc : (parseRules q).contains_character = none ↔
      ¬ (utf16 "containing the first vowel" <:+: q ∨ ∃ pre c, ContainingLetterAt q pre c) := by
    rw [← parseRules_contains_character_isSome, Option.not_isSome_iff_eq_none]
  rw [Filters.hasNoKeys_iff, parseRules_is_palindrome_none, parseRules_word_count_none, hmin, hc]
  unfold NoRuleFires
  constructor
  · rintro ⟨h1, h2, _, h4, h5⟩
    exact ⟨h1, h4, fun h => h5 (Or.inl h), h2, fun h => h5 (Or.inr h)⟩
  · rintro ⟨h1, h2, h3, h4, h5⟩
    exact ⟨h1, h4, parseRules_max_length q, h2, fun h => h.elim h3 h5⟩

/-- The handler on a non-empty query string. -/
theorem filterByNaturalLanguage_of_string (env : Env) (database : Store) (query : JSString)
    (hne : query ≠ []) :
    filterByNaturalLanguage env database (some (.str query)) =
      if (parseRules (env.toLowerCase query)).hasNoKeys = true then
        (.respond 400 (.error "Unable to parse natural language query"), database)
      else
        (.respond 200
          (.interpreted
            (database.values.filter
              (matchesParsedFilters env (parseRules (env.toLowerCase query))))
            (database.values.filter
              (matchesParsedFilters env (parseRules (env.toLowerCase query)))).length
            query (parseRules (env.toLowerCase query))), database) := by
  cases query with
  | nil => exact absurd rfl hne
  | cons u rest => simp [filterByNaturalLanguage]

/-- C9: for a non-empty query string, the translation is answered "400, unable
to parse" exactly when no rule fires on the lower-cased query; otherwise it is
answered 200 with a parsed filter set that has a field, and a field is there
exactly when its rule fired: `is_palindrome` (set to `true`) for "palindromic",
`word_count` (set to 1) for "single word", `min_length` for a match of
"longer than <digits>", `contains_character` for "containing the first vowel"
or a match of "containing the letter <a-z>", and never `max_length`. -/
theorem translation_fails_iff_no_rule (env : Env) (database : Store) (query : JSString)
    (hne : query ≠ []) :
    (filterByNaturalLanguage env database (some (.str query)) =
        (.respond 400 (.error "Unable to parse natural language query"), database)
      ↔ NoRuleFires (env.toLowerCase query))
    ∧ (¬ NoRuleFires (env.toLowerCase query) →
        ∃ data,
          filterByNaturalLanguage env database (some (.str query)) =
            (.respond 200
              (.interpreted data data.length query (parseRules (env.toLowerCase query))),
              database)
          ∧ (parseRules (env.toLowerCase query)).hasNoKeys = false)
    ∧ ((parseRules (env.toLowerCase query)).is_palindrome =
          if utf16 "palindromic" <:+: env.toLowerCase query then some true else none)
    ∧ ((parseRules (env.toLowerCase query)).word_count =
          if utf16 "single word" <:+: env.toLowerCase query then some (.finite 1) else none)
    ∧ ((parseRules (env.toLowerCase query)).min_length.isSome = true
          ↔ ∃ pre, LongerThanAt (env.toLowerCase query) pre)
    ∧ ((parseRules (env.toLowerCase query)).contains_character.isSome = true
          ↔ utf16 "containing the first vowel" <:+: env.toLowerCase query
            ∨ ∃ pre c, ContainingLetterAt (env.toLowerCase query) pre c)
    ∧ (parseRules (env.toLowerCase query)).max_length = none := by
  have hhandler := filterByNaturalLanguage_of_string env database query hne
  have hkeys := hasNoKeys_parseRules_iff (env.toLowerCase query)
  refine ⟨?_, ?_, ?_, ?_, parseRules_min_length_isSome _,
    parseRules_contains_character_isSome _, parseRules_max_length _⟩
  · rw [hhandler, ← hkeys]
    by_cases hk : (parseRules (env.toLowerCase query)).hasNoKeys = true
    · rw [if_pos hk]
      exact ⟨fun _ => hk, fun _ => rfl⟩
    · rw [if_neg hk]
      constructor
      · intro h
        have := congrArg (fun o => o.1.status) h
        simp [Outcome.status] at this
      · intro h; exact absurd h hk
  · intro hfires
    have hk : ¬ (parseRules (env.toLowerCase query)).hasNoKeys = true := fun h => hfires (hkeys.mp h)
    rw [hhandler, if_neg hk]
    exact ⟨_, rfl, by simpa using hk⟩
  · rw [parseRules_is_palindrome]
    by_cases h : includes (env.toLowerCase query) (utf16 "palindromic") = true
    · rw [if_pos h, if_pos ((includes_iff _ _).mp h)]
    · rw [if_neg h, if_neg (fun h' => h ((includes_iff _ _).mpr h'))]
  · rw [parseRules_word_count]
    by_cases h : includes (env.toLowerCase query) (utf16 "single word") = true
    · rw [if_pos h, if_pos ((includes_iff _ _).mp h)]
    · rw [if_neg h, if_neg (fun h' => h ((includes_iff _ _).mpr h'))]

/-- C9 at concrete inputs: "hello" fires no rule and is answered 400; "all
single word palindromic strings" is answered 200. -/
theorem translation_fails_iff_no_rule_witness :
    utf16 "hello" ≠ []
    ∧ NoRuleFires (node.toLowerCase (utf16 "hello"))
    ∧ ¬ NoRuleFires (node.toLowerCase (utf16 "all single word palindromic strings")) :=
  ⟨by decide,
    (translation_fails_iff_no_rule node [] (utf16 "hello") (by decide)).1.mp (by decide),
    fun h => absurd
      ((translation_fails_iff_no_rule node [] (utf16 "all single word palindromic strings")
        (by decide)).1.mpr h) (by decide)⟩

/-- The leftmost match of `/containing the letter ([a-z])/` captures the letter
at the first position where the pattern matches. -/
theorem matchContainingLetter_of_first (q pre : JSString) (c : Nat)
    (hat : ContainingLetterAt q pre c)
    (hfirst : ∀ pre' c', ContainingLetterAt q pre' c' → pre.length ≤ pre'.length) :
    matchContainingLetter q = some [c] := by
  obtain ⟨post, hc, hq⟩ := hat
  unfold matchContainingLetter
  rw [hq, List.append_assoc]
  apply firstMatch_eq_some
  · exact (containingLetterHere_eq_some_iff _ _).mpr ⟨c, post, hc, rfl, rfl⟩
  · intro pre' s' hsplit hlen
    cases hs : containingLetterHere s' with
    | none => rfl
    | some letter =>
      obtain ⟨c', post', hc', _, hs'⟩ := (containingLetterHere_eq_some_iff _ _).mp hs
      have : ContainingLetterAt q pre' c' :=
        ⟨post', hc', by rw [hq, List.append_assoc, hsplit, hs', List.append_assoc]⟩
      have := hfirst pre' c' this
      omega

/-- C10: when the lower-cased query contains "containing the first vowel", the
translation is answered 200 and the parsed filter set has
`contains_character = "a"`, whatever "containing the letter <c>" it also
matches; and when it does not, and `c` is the letter captured at the first
match of "containing the letter <a-z>", the parsed filter set has
`contains_character = c`. -/
theorem first_vowel_overrides_letter (env : Env) (database : Store) (query : JSString)
    (hne : query ≠ []) :
    (utf16 "containing the first vowel" <:+: env.toLowerCase query →
      ∃ data parsed,
        filterByNaturalLanguage env database (some (.str query)) =
          (.respond 200 (.interpreted data data.length query parsed), database)
        ∧ parsed.contains_character = some (utf16 "a"))
    ∧ (∀ pre c, ¬ utf16 "containing the first vowel" <:+: env.toLowerCase query →
        ContainingLetterAt (env.toLowerCase query) pre c →
        (∀ pre' c', ContainingLetterAt (env.toLowerCase query) pre' c' →
          pre.length ≤ pre'.length) →
        ∃ data parsed,
          filterByNaturalLanguage env database (some (.str query)) =
            (.respond 200 (.interpreted data data.length query parsed), database)
          ∧ parsed.contains_character = some [c]) := by
  have hhandler := filterByNaturalLanguage_of_string env database query hne
  have hkeys := hasNoKeys_parseRules_iff (env.toLowerCase query)
  constructor
  · intro hv
    have hk : ¬ (parseRules (env.toLowerCase query)).hasNoKeys = true :=
      fun h => (hkeys.mp h).2.2.1 hv
    rw [hhandler, if_neg hk]
    refine ⟨_, _, rfl, ?_⟩
    rw [parseRules_contains_character, if_pos ((includes_iff _ _).mpr hv)]
  · intro pre c hv hat hfirst
    have hk : ¬ (parseRules (env.toLowerCase query)).hasNoKeys = true :=
      fun h => (hkeys.mp h).2.2.2.2 ⟨pre, c, hat⟩
    rw [hhandler, if_neg hk]
    refine ⟨_, _, rfl, ?_⟩
    rw [parseRules_contains_character, if_neg (fun h => hv ((includes_iff _ _).mp h)),
      if_pos (includes_of_containingLetterAt _ pre c hat),
      matchContainingLetter_of_first _ pre c hat hfirst]

/-- C10 at concrete inputs: "containing the letter z" gives `z`, and with
"containing the first vowel" added it gives `a`. -/
theorem first_vowel_overrides_letter_witness :
    (∃ data parsed,
      filterByNaturalLanguage node [] (some (.str (utf16 "containing the letter z"))) =
        (.respond 200
          (.interpreted data data.length (utf16 "containing the letter z") parsed), [])
      ∧ parsed.contains_character = some (utf16 "z"))
    ∧ (∃ data parsed,
      filterByNaturalLanguage node []
          (some (.str (utf16 "containing the letter z, containing the first vowel"))) =
        (.respond 200
          (.interpreted data data.length
            (utf16 "containing the letter z, containing the first vowel") parsed), [])
      ∧ parsed.contains_character = some (utf16 "a")) :=
  ⟨(first_vowel_overrides_letter node [] (utf16 "containing the letter z") (by decide)).2
      [] 122 (by decide) ⟨[], by decide, by decide⟩ (fun _ _ _ => Nat.zero_le _),
    (first_vowel_overrides_letter node []
      (utf16 "containing the letter z, containing the first vowel") (by decide)).1 (by decide)⟩

/-! ## `parseInt` on decimal digits -/

theorem isDigit_iff (u : Nat) : isDigit u = true ↔ 48 ≤ u ∧ u ≤ 57 := by
  simp [isDigit]

theorem leadingDigits_of_digits (digits : JSString) (h : ∀ u ∈ digits, isDigit u = true) :
    leadingDigits 10 digits = digits.map (fun u => u - 48) := by
  induction digits with
  | nil => rfl
  | cons u rest ih =>
    have hu := (isDigit_iff u).mp (h u (List.mem_cons_self _ _))
    have hv : digitValue 10 u = some (u - 48) := by
      have h1 : 48 ≤ u ∧ u ≤ 57 := hu
      have h2 : u - 48 < 10 := by omega
      simp [digitValue, h1, h2]
    rw [leadingDigits, hv]
    simp only [List.map_cons]
    rw [ih (fun v hv => h v (List.mem_cons_of_mem _ hv))]

/-- `parseInt` of a non-empty string of decimal digits is the Number value of
the number they denote. -/
theorem parseInt_of_digits (digits : JSString) (hne : digits ≠ [])
    (h : ∀ u ∈ digits, isDigit u = true) :
    parseInt digits = JSNumber.ofInt (digitsValue digits) := by
  cases digits with
  | nil => exact absurd rfl hne
  | cons d rest =>
    have hd := (isDigit_iff d).mp (h d (List.mem_cons_self _ _))
    have hws : isWhiteSpace d = false := by
      simp only [isWhiteSpace, Bool.or_eq_false_iff, Bool.and_eq_false_iff,
        decide_eq_false_iff_not, List.mem_cons, List.mem_singleton, List.not_mem_nil, or_false]
      omega
    have htrim : (d :: rest).dropWhile isWhiteSpace = d :: rest := by
      simp [List.dropWhile_cons, hws]
    have hneg : decide ((d :: rest).head? = some 45) = false := by
      simp only [List.head?_cons, Option.some.injEq, decide_eq_false_iff_not]
      omega
    have hstrip : stripSign (d :: rest) = d :: rest := by
      unfold stripSign
      split
      · rename_i heq; cases heq; omega
      · rename_i heq; cases heq; omega
      · rfl
    have hhex : hasHexPrefix (d :: rest) = false := by
      unfold hasHexPrefix
      split
      · rename_i heq
        cases heq
        have := (isDigit_iff 120).mp (h 120 (by simp))
        omega
      · rename_i heq
        cases heq
        have := (isDigit_iff 88).mp (h 88 (by simp))
        omega
      · rfl
    have hlead := leadingDigits_of_digits _ h
    have hnonempty : ((d :: rest).map (fun u => u - 48)).isEmpty = false := rfl
    unfold parseInt
    simp only [htrim, hneg, hstrip, hhex, Bool.false_eq_true, if_false, hlead, hnonempty]
    simp [digitsValue, List.foldl_map]

theorem decimalAux_digits (fuel n : Nat) (acc : JSString)
    (hacc : ∀ u ∈ acc, isDigit u = true) : ∀ u ∈ decimalAux fuel n acc, isDigit u = true := by
  induction fuel generalizing n acc with
  | zero => exact hacc
  | succ fuel ih =>
    unfold decimalAux
    by_cases hn : n < 10
    · rw [if_pos hn]
      intro u hu
      rcases List.mem_cons.mp hu with rfl | hu
      · rw [isDigit_iff]; omega
      · exact hacc u hu
    · rw [if_neg hn]
      apply ih
      intro u hu
      rcases List.mem_cons.mp hu with rfl | hu
      · rw [isDigit_iff]; omega
      · exact hacc u hu

theorem decimalAux_ne_nil (fuel n : Nat) (acc : JSString) (h : 0 < fuel ∨ acc ≠ []) :
    decimalAux fuel n acc ≠ [] := by
  induction fuel generalizing n acc with
  | zero =>
    rcases h with h | h
    · omega
    · exact h
  | succ fuel ih =>
    unfold decimalAux
    by_cases hn : n < 10
    · rw [if_pos hn]; simp
    · rw [if_neg hn]; exact ih _ _ (Or.inr (by simp))

theorem decimalAux_value (fuel n : Nat) (acc : JSString) (h : n < fuel) :
    (decimalAux fuel n acc).foldl (fun a u => a * 10 + (u - 48)) 0
      = acc.foldl (fun a u => a * 10 + (u - 48)) n := by
  induction fuel generalizing n acc with
  | zero => omega
  | succ fuel ih =>
    unfold decimalAux
    by_cases hn : n < 10
    · rw [if_pos hn]
      simp
    · rw [if_neg hn, ih (n / 10) _ (by omega)]
      simp only [List.foldl_cons]
      congr 1
      omega

/-- The decimal writing of `n` is a non-empty string of digits that denotes `n`. -/
theorem decimal_spec (n : Nat) :
    decimal n ≠ [] ∧ (∀ u ∈ decimal n, isDigit u = true) ∧ digitsValue (decimal n) = n := by
  refine ⟨decimalAux_ne_nil _ _ _ (Or.inl (Nat.succ_pos n)),
    decimalAux_digits _ _ _ (by simp), ?_⟩
  unfold digitsValue decimal
  rw [decimalAux_value _ _ _ (Nat.lt_succ_self n)]
  rfl

theorem roundNat_of_lt (n : Nat) (h : n < 2 ^ 53) : roundNat n = some n := by
  unfold roundNat
  rw [if_pos h]

theorem roundNat_two_pow_53 : roundNat (2 ^ 53) = some (2 ^ 53) := by decide!

/-- Adding one to the Number value of `n` is exact up to `2 ^ 53`. -/
theorem addOne_ofInt (n : Nat) (h : n < 2 ^ 53) :
    (JSNumber.ofInt (n : Int)).addOne = .finite ((n : Int) + 1) := by
  have h0 : (0 : Int) ≤ (n : Int) := Int.ofNat_nonneg n
  have h1 : (0 : Int) ≤ (n : Int) + 1 := by omega
  have hround : roundNat (n + 1) = some (n + 1) := by
    by_cases hlt : n + 1 < 2 ^ 53
    · exact roundNat_of_lt _ hlt
    · have : n + 1 = 2 ^ 53 := by omega
      rw [this]
      exact roundNat_two_pow_53
  have htoNat : ((n : Int) + 1).toNat = n + 1 := by omega
  simp only [JSNumber.ofInt, h0, if_true, Int.toNat_ofNat, roundNat_of_lt n h, JSNumber.addOne,
    h1, htoNat, hround]
  simp

theorem takeWhile_digits_append (digits post : JSString)
    (hd : ∀ u ∈ digits, isDigit u = true) (hpost : ∀ d ∈ post.head?, isDigit d = false) :
    (digits ++ post).takeWhile isDigit = digits := by
  induction digits with
  | nil =>
    cases post with
    | nil => rfl
    | cons p rest =>
      have := hpost p (by simp)
      simp [List.takeWhile_cons, this]
  | cons u rest ih =>
    have hu := hd u (List.mem_cons_self _ _)
    simp only [List.cons_append, List.takeWhile_cons, hu, if_true]
    rw [ih (fun v hv => hd v (List.mem_cons_of_mem _ hv))]

theorem longerThanHere_of_digits (digits post : JSString) (hne : digits ≠ [])
    (hd : ∀ u ∈ digits, isDigit u = true) (hpost : ∀ d ∈ post.head?, isDigit d = false) :
    longerThanHere (utf16 "longer than " ++ (digits ++ post)) = some digits := by
  unfold longerThanHere
  have hs : startsWith (utf16 "longer than " ++ (digits ++ post)) (utf16 "longer than ") = true :=
    (startsWith_iff _ _).mpr ⟨_, rfl⟩
  rw [if_pos hs, List.drop_left, takeWhile_digits_append digits post hd hpost]
  cases digits with
  | nil => exact absurd rfl hne
  | cons u rest => rfl

/-- The leftmost match of `/longer than (\d+)/` captures the digit run at the
first position where the pattern matches. -/
theorem matchLongerThan_of_first (q pre digits post : JSString) (hne : digits ≠ [])
    (hd : ∀ u ∈ digits, isDigit u = true) (hpost : ∀ d ∈ post.head?, isDigit d = false)
    (hq : q = pre ++ utf16 "longer than " ++ digits ++ post)
    (hfirst : ∀ pre', LongerThanAt q pre' → pre.length ≤ pre'.length) :
    matchLongerThan q = some digits := by
  unfold matchLongerThan
  have hq' : q = pre ++ (utf16 "longer than " ++ (digits ++ post)) := by
    rw [hq]; simp only [List.append_assoc]
  rw [hq']
  apply firstMatch_eq_some
  · exact longerThanHere_of_digits digits post hne hd hpost
  · intro pre' s' hsplit hlen
    cases hs : longerThanHere s' with
    | none => rfl
    | some captured =>
      have hsome : (longerThanHere s').isSome = true := by rw [hs]; rfl
      obtain ⟨d, post', hdig, hs'⟩ := (longerThanHere_isSome_iff s').mp hsome
      have : LongerThanAt q pre' :=
        ⟨d, post', hdig, by rw [hq', hsplit, hs', List.append_assoc]⟩
      have := hfirst pre' this
      omega

/-- C8 as stated fails for `N = 2 ^ 53`: the query
"longer than 9007199254740992" is translated to
`min_length = 9007199254740992`, not `N + 1`, because `parseInt(...) + 1` is
rounded to the nearest double. -/
theorem longer_than_rounds_at_two_pow_53 :
    node.toLowerCase (utf16 "longer than 9007199254740992")
      = utf16 "longer than " ++ decimal 9007199254740992
    ∧ filterByNaturalLanguage node [] (some (.str (utf16 "longer than 9007199254740992"))) =
        (.respond 200
          (.interpreted [] 0 (utf16 "longer than 9007199254740992")
            { Filters.empty with min_length := some (.finite 9007199254740992) }), [])
    ∧ JSNumber.finite 9007199254740992 ≠ .finite (9007199254740992 + 1) := by
  decide!

/-- C8, amended: for every natural number `N` below `2 ^ 53` and every
non-empty query whose lower-cased text has "longer than " followed by the
decimal digits of `N` and no further digit, at the first match of
"longer than <digits>", the translation is answered 200 with
`min_length = N + 1`; and "strings longer than 3 characters" is translated to
`min_length = 4` and no other filter. -/
theorem longer_than_sets_min_length (env : Env) (database : Store) (query : JSString)
    (N : Nat) (pre post : JSString) (hne : query ≠ []) (hN : N < 2 ^ 53)
    (hq : env.toLowerCase query = pre ++ utf16 "longer than " ++ decimal N ++ post)
    (hpost : ∀ d ∈ post.head?, isDigit d = false)
    (hfirst : ∀ pre', LongerThanAt (env.toLowerCase query) pre' → pre.length ≤ pre'.length) :
    (∃ data parsed,
      filterByNaturalLanguage env database (some (.str query)) =
        (.respond 200 (.interpreted data data.length query parsed), database)
      ∧ parsed.min_length = some (.finite ((N : Int) + 1)))
    ∧ (env.toLowerCase (utf16 "strings longer than 3 characters")
          = utf16 "strings longer than 3 characters" →
        ∃ data,
          filterByNaturalLanguage env database
              (some (.str (utf16 "strings longer than 3 characters"))) =
            (.respond 200
              (.interpreted data data.length (utf16 "strings longer than 3 characters")
                { Filters.empty with min_length := some (.finite 4) }), database)) := by
  obtain ⟨hdne, hdig, hval⟩ := decimal_spec N
  constructor
  · have hmatch := matchLongerThan_of_first (env.toLowerCase query) pre (decimal N) post hdne
      hdig hpost hq hfirst
    have hat : LongerThanAt (env.toLowerCase query) pre := by
      cases hdec : decimal N with
      | nil => exact absurd hdec hdne
      | cons d rest =>
        refine ⟨d, rest ++ post, hdig d (by rw [hdec]; exact List.mem_cons_self _ _), ?_⟩
        rw [hq, hdec]
        simp only [List.append_assoc, List.cons_append]
    have hk : ¬ (parseRules (env.toLowerCase query)).hasNoKeys = true :=
      fun h => ((hasNoKeys_parseRules_iff _).mp h).2.2.2.1 ⟨pre, hat⟩
    rw [filterByNaturalLanguage_of_string env database query hne, if_neg hk]
    refine ⟨_, _, rfl, ?_⟩
    rw [parseRules_min_length, if_pos (includes_of_longerThanAt _ pre hat), hmatch,
      Option.map_some', parseInt_of_digits _ hdne hdig, hval, addOne_ofInt N hN]
  · intro hlower
    have hne3 : utf16 "strings longer than 3 characters" ≠ [] := by decide
    rw [filterByNaturalLanguage_of_string env database _ hne3, hlower]
    have hrules : parseRules (utf16 "strings longer than 3 characters")
        = { Filters.empty with min_length := some (.finite 4) } := by decide
    rw [hrules]
    exact ⟨_, rfl⟩

/-- C8 amended, at a concrete input: "longer than 3 characters" is translated
to `min_length = 4`. -/
theorem longer_than_sets_min_length_witness :
    node.toLowerCase (utf16 "longer than 3 characters")
      = [] ++ utf16 "longer than " ++ decimal 3 ++ utf16 " characters"
    ∧ ∃ data parsed,
      filterByNaturalLanguage node [] (some (.str (utf16 "longer than 3 characters"))) =
        (.respond 200
          (.interpreted data data.length (utf16 "longer than 3 characters") parsed), [])
      ∧ parsed.min_length = some (.finite ((3 : Nat) + 1)) :=
  ⟨by decide,
    (longer_than_sets_min_length node [] (utf16 "longer than 3 characters") 3 []
      (utf16 " characters") (by decide) (by decide) (by decide) (by decide)
      (fun _ _ => Nat.zero_le _)).1⟩

/-! ## The two filter callbacks -/

theorem matchesFilters_eq_true_iff (env : Env) (filters : Filters) (r : StringRecord) :
    matchesFilters env filters r = true ↔
      failsPalindrome filters r.properties = false ∧ failsMinLength filters r.properties = false
        ∧ failsMaxLength filters r.properties = false
        ∧ failsWordCount filters r.properties = false ∧ failsContains env filters r = false := by
  unfold matchesFilters
  simp only []
  cases failsPalindrome filters r.properties <;> cases failsMinLength filters r.properties <;>
    cases failsMaxLength filters r.properties <;> cases failsWordCount filters r.properties <;>
    cases failsContains env filters r <;> simp

/-- Without a `max_length` field the copy of the filter in the
natural-language handler is the filter of `GET /strings`. -/
theorem matchesParsedFilters_eq (env : Env) (filters : Filters)
    (hmax : filters.max_length = none) :
    matchesParsedFilters env filters = matchesFilters env filters := by
  funext r
  have h : failsMaxLength filters r.properties = false := by
    unfold failsMaxLength
    rw [hmax]
  unfold matchesParsedFilters matchesFilters
  simp only [h]
  rfl

/-- C11: for every store and every filter set the translator produces (from a
non-empty query on which some rule fires), the natural-language endpoint
returns the listing filtered by the callback of `GET /strings` for that filter
set; and every `GET /strings` query that validates to the same filter set is
answered with the same records and count. -/
theorem natural_language_agrees_with_filter_engine (env : Env) (database : Store)
    (query : JSString) (hne : query ≠ []) (hfires : ¬ NoRuleFires (env.toLowerCase query)) :
    filterByNaturalLanguage env database (some (.str query)) =
      (.respond 200
        (.interpreted
          (database.values.filter (matchesFilters env (parseRules (env.toLowerCase query))))
          (database.values.filter
            (matchesFilters env (parseRules (env.toLowerCase query)))).length
          query (parseRules (env.toLowerCase query))), database)
    ∧ ∀ structured : Query,
        validateQuery env structured = .ok (parseRules (env.toLowerCase query)) →
        ∃ data,
          getStrings env database structured =
            (.respond 200 (.filtered data data.length (parseRules (env.toLowerCase query))),
              database)
          ∧ filterByNaturalLanguage env database (some (.str query)) =
            (.respond 200
              (.interpreted data data.length query (parseRules (env.toLowerCase query))),
              database) := by
  have hk : ¬ (parseRules (env.toLowerCase query)).hasNoKeys = true :=
    fun h => hfires ((hasNoKeys_parseRules_iff _).mp h)
  have hnl := filterByNaturalLanguage_of_string env database query hne
  rw [if_neg hk, matchesParsedFilters_eq env _ (parseRules_max_length _)] at hnl
  refine ⟨hnl, fun structured hvalid => ⟨_, ?_, hnl⟩⟩
  unfold getStrings
  rw [hvalid]

/-- C11 at a concrete input: "palindromic" and `?is_palindrome=true` give the
same filter set, and over the store holding "level" and "go" both endpoints
return the record of "level". -/
theorem natural_language_agrees_with_filter_engine_witness :
    validateQuery node palindromeTrue = .ok (parseRules (node.toLowerCase (utf16 "palindromic")))
    ∧ ∃ data,
        getStrings node storeLevelGo palindromeTrue =
          (.respond 200
            (.filtered data data.length (parseRules (node.toLowerCase (utf16 "palindromic")))),
            storeLevelGo)
        ∧ filterByNaturalLanguage node storeLevelGo (some (.str (utf16 "palindromic"))) =
          (.respond 200
            (.interpreted data data.length (utf16 "palindromic")
              (parseRules (node.toLowerCase (utf16 "palindromic")))), storeLevelGo) :=
  ⟨rfl,
    (natural_language_agrees_with_filter_engine node storeLevelGo (utf16 "palindromic")
      (by decide)
      (fun h => absurd ((hasNoKeys_parseRules_iff _).mpr h) (by decide))).2 palindromeTrue rfl⟩

/-! ## Validation of the query parameters -/

theorem validateInt_eq_ok (message : String) (v : Option QueryValue) (x : Option JSNumber)
    (h : validateInt message v = .ok x) : x = v.map (fun value => parseInt value.toStr) := by
  cases v with
  | none =>
    simp only [validateInt] at h
    cases h
    rfl
  | some q =>
    simp only [validateInt] at h
    by_cases hn : (parseInt q.toStr).isNaN = true
    · simp [hn] at h
    · simp only [hn] at h
      cases h
      rfl

theorem validatePalindrome_eq_ok (v : Option QueryValue) (x : Option Bool)
    (h : validatePalindrome v = .ok x) :
    x = v.map (fun value => decide (value = .str (utf16 "true")))
    ∧ ∀ value, v = some value → value = .str (utf16 "true") ∨ value = .str (utf16 "false") := by
  cases v with
  | none =>
    simp only [validatePalindrome] at h
    cases h
    exact ⟨rfl, fun _ hv => by cases hv⟩
  | some q =>
    simp only [validatePalindrome] at h
    by_cases hq : q ≠ .str (utf16 "true") ∧ q ≠ .str (utf16 "false")
    · rw [if_pos hq] at h
      cases h
    · rw [if_neg hq] at h
      cases h
      refine ⟨rfl, fun value hv => ?_⟩
      cases hv
      by_cases h1 : q = .str (utf16 "true")
      · exact Or.inl h1
      · by_cases h2 : q = .str (utf16 "false")
        · exact Or.inr h2
        · exact absurd ⟨h1, h2⟩ hq

theorem validateCharacter_eq_ok (env : Env) (v : Option QueryValue) (x : Option JSString)
    (h : validateCharacter env v = .ok x) :
    x = v.map (fun value => env.toLowerCase value.toStr)
    ∧ ∀ value, v = some value → ∃ u, value = .str [u] := by
  cases v with
  | none =>
    simp only [validateCharacter] at h
    cases h
    exact ⟨rfl, fun _ hv => by cases hv⟩
  | some q =>
    cases q with
    | composite t =>
      simp only [validateCharacter] at h
      cases h
    | str c =>
      simp only [validateCharacter] at h
      by_cases hc : c.length ≠ 1
      · rw [if_pos hc] at h
        cases h
      · rw [if_neg hc] at h
        cases h
        refine ⟨rfl, fun value hv => ?_⟩
        cases hv
        have hlen : c.length = 1 := by omega
        obtain ⟨u, hu⟩ := List.length_eq_one.mp hlen
        exact ⟨u, by rw [hu]⟩

/-- The handler answers 200 exactly when the query passes validation. -/
theorem getStrings_ok (env : Env) (database : Store) (query : Query)
    (h : (getStrings env database query).1.status = some 200) :
    ∃ filters, validateQuery env query = .ok filters := by
  unfold getStrings at h
  cases hv : validateQuery env query with
  | error e =>
    rw [hv] at h
    simp [Outcome.status] at h
  | ok filters => exact ⟨filters, rfl⟩

theorem ofInt_of_lt (n : Nat) (h : n < 2 ^ 53) : JSNumber.ofInt (n : Int) = .finite n := by
  have h0 : (0 : Int) ≤ (n : Int) := Int.ofNat_nonneg n
  simp only [JSNumber.ofInt, h0, if_true, Int.toNat_ofNat, roundNat_of_lt n h]

/-- A numeric parameter written as a decimal number below `2 ^ 53` is parsed
to that number. -/
theorem map_parseInt_of_digits (v : Option QueryValue) (digits : JSString)
    (hv : v = some (.str digits)) (hne : digits ≠ [])
    (hdig : ∀ u ∈ digits, isDigit u = true) (hlt : digitsValue digits < 2 ^ 53) :
    v.map (fun value => parseInt value.toStr) = some (.finite (digitsValue digits)) := by
  rw [hv]
  simp only [Option.map_some', QueryValue.toStr]
  rw [parseInt_of_digits digits hne hdig, ofInt_of_lt _ hlt]

theorem integer_or_infinite (m : JSNumber) (h : m ≠ .nan) :
    (∃ z : Int, m = .finite z) ∨ m = .posInf ∨ m = .negInf := by
  cases m with
  | finite z => exact Or.inl ⟨z, rfl⟩
  | posInf => exact Or.inr (Or.inl rfl)
  | negInf => exact Or.inr (Or.inr rfl)
  | nan => exact absurd rfl h

/-- C17 as stated fails: `?min_length=` followed by 310 nines passes validation
and is answered 200 with `min_length = Infinity` in `filters_applied`, which is
not an integer (`parseInt` overflows the double range and `isNaN(Infinity)` is
false). -/
theorem min_length_parses_to_infinity :
    getStrings node [] minLengthHuge =
      (.respond 200 (.filtered [] 0 { Filters.empty with min_length := some .posInf }), []) := by
  decide!

/-- C17, amended: in every `GET /strings` response with status 200, `count` is
the number of records in `data`, and `filters_applied` has a field exactly for
the parameters present in the request, holding the parsed value: the flag for
`is_palindrome` (which was "true" or "false"); `parseInt` of the parameter for
`min_length`, `max_length` and `word_count`, which is never `NaN` but an
integer or, beyond the double range, `Infinity` or `-Infinity`, and is the
written number for a decimal number below `2 ^ 53`; and the lower-cased
character for `contains_character` (which was one code unit). -/
theorem getStrings_response_shape (env : Env) (database : Store) (query : Query)
    (h : (getStrings env database query).1.status = some 200) :
    ∃ data filters,
      getStrings env database query = (.respond 200 (.filtered data data.length filters), database)
      ∧ filters.is_palindrome =
          query.is_palindrome.map (fun value => decide (value = .str (utf16 "true")))
      ∧ filters.min_length = query.min_length.map (fun value => parseInt value.toStr)
      ∧ filters.max_length = query.max_length.map (fun value => parseInt value.toStr)
      ∧ filters.word_count = query.word_count.map (fun value => parseInt value.toStr)
      ∧ filters.contains_character =
          query.contains_character.map (fun value => env.toLowerCase value.toStr)
      ∧ filters.NoNaN
      ∧ (∀ value, query.is_palindrome = some value →
          value = .str (utf16 "true") ∨ value = .str (utf16 "false"))
      ∧ (∀ value, query.contains_character = some value → ∃ u, value = .str [u])
      ∧ (∀ m, filters.min_length = some m ∨ filters.max_length = some m
            ∨ filters.word_count = some m →
          (∃ z : Int, m = .finite z) ∨ m = .posInf ∨ m = .negInf)
      ∧ (∀ digits, digits ≠ [] → (∀ u ∈ digits, isDigit u = true) →
          digitsValue digits < 2 ^ 53 →
          (query.min_length = some (.str digits) →
            filters.min_length = some (.finite (digitsValue digits)))
          ∧ (query.max_length = some (.str digits) →
            filters.max_length = some (.finite (digitsValue digits)))
          ∧ (query.word_count = some (.str digits) →
            filters.word_count = some (.finite (digitsValue digits)))) := by
  obtain ⟨filters, hvalid⟩ := getStrings_ok env database query h
  obtain ⟨hp, hmin, hmax, hw, hc⟩ := (validateQuery_ok_iff env query filters).mp hvalid
  have hnan := validateQuery_noNaN env query filters hvalid
  have emin := validateInt_eq_ok _ _ _ hmin
  have emax := validateInt_eq_ok _ _ _ hmax
  have ew := validateInt_eq_ok _ _ _ hw
  refine ⟨database.values.filter (matchesFilters env filters), filters, ?_,
    (validatePalindrome_eq_ok _ _ hp).1, emin, emax, ew,
    (validateCharacter_eq_ok env _ _ hc).1, hnan,
    (validatePalindrome_eq_ok _ _ hp).2, (validateCharacter_eq_ok env _ _ hc).2, ?_, ?_⟩
  · unfold getStrings
    rw [hvalid]
  · intro m hm
    apply integer_or_infinite
    intro hm'
    subst hm'
    rcases hm with hm | hm | hm
    · exact hnan.1 hm
    · exact hnan.2.1 hm
    · exact hnan.2.2 hm
  · intro digits hne hdig hlt
    refine ⟨fun hq => ?_, fun hq => ?_, fun hq => ?_⟩
    · rw [emin]; exact map_parseInt_of_digits _ digits hq hne hdig hlt
    · rw [emax]; exact map_parseInt_of_digits _ digits hq hne hdig hlt
    · rw [ew]; exact map_parseInt_of_digits _ digits hq hne hdig hlt

/-- C17 amended, at a concrete input: `?is_palindrome=true&min_length=5` over
the store holding "level" and "go" is answered 200, and `filters_applied` has
the two fields, `min_length` being the integer 5. -/
theorem getStrings_response_shape_witness :
    (getStrings node storeLevelGo palindromeMin5).1.status = some 200
    ∧ ∃ data filters,
      getStrings node storeLevelGo palindromeMin5 =
        (.respond 200 (.filtered data data.length filters), storeLevelGo)
      ∧ filters.is_palindrome = some true ∧ filters.min_length = some (.finite 5)
      ∧ filters.max_length = none :=
  ⟨by decide!,
    match getStrings_response_shape node storeLevelGo palindromeMin5 (by decide!) with
    | ⟨data, filters, hresp, hp, hmin, hmax, _⟩ => ⟨data, filters, hresp, hp, hmin, hmax⟩⟩

/-- C12, the code at the failing inputs: `?min_length=5abc` and
`?max_length=3.7` are not integers, yet they pass validation (`parseInt` reads
the leading digits) and are answered 200 with `min_length = 5` and
`max_length = 3` applied, whatever the store; `?word_count=abc` is answered
400. -/
theorem getStrings_accepts_integer_prefix (env : Env) (database : Store) :
    getStrings env database minLength5abc =
      (.respond 200
        (.filtered
          (database.values.filter
            (matchesFilters env { Filters.empty with min_length := some (.finite 5) }))
          (database.values.filter
            (matchesFilters env { Filters.empty with min_length := some (.finite 5) })).length
          { Filters.empty with min_length := some (.finite 5) }), database)
    ∧ getStrings env database maxLength3dot7 =
      (.respond 200
        (.filtered
          (database.values.filter
            (matchesFilters env { Filters.empty with max_length := some (.finite 3) }))
          (database.values.filter
            (matchesFilters env { Filters.empty with max_length := some (.finite 3) })).length
          { Filters.empty with max_length := some (.finite 3) }), database)
    ∧ getStrings env database wordCountAbc =
      (.respond 400 (.error "word_count must be an integer"), database) := by
  have h1 : validateQuery env minLength5abc
      = .ok { Filters.empty with min_length := some (.finite 5) } := rfl
  have h2 : validateQuery env maxLength3dot7
      = .ok { Filters.empty with max_length := some (.finite 3) } := rfl
  have h3 : validateQuery env wordCountAbc = .error "word_count must be an integer" := rfl
  refine ⟨?_, ?_, ?_⟩
  · unfold getStrings; rw [h1]
  · unfold getStrings; rw [h2]
  · unfold getStrings; rw [h3]

/-! ## Monotonicity of the filter -/

theorem failsPalindrome_mono (f g : Filters) (p : Properties)
    (h : ∀ b, f.is_palindrome = some b → g.is_palindrome = some b)
    (hg : failsPalindrome g p = false) : failsPalindrome f p = false := by
  unfold failsPalindrome at hg ⊢
  cases hf : f.is_palindrome with
  | none => rfl
  | some b => rw [h b hf] at hg; exact hg

theorem failsMinLength_mono (f g : Filters) (p : Properties)
    (h : ∀ m, f.min_length = some m → g.min_length = some m)
    (hg : failsMinLength g p = false) : failsMinLength f p = false := by
  unfold failsMinLength at hg ⊢
  cases hf : f.min_length with
  | none => rfl
  | some m => rw [h m hf] at hg; exact hg

theorem failsMaxLength_mono (f g : Filters) (p : Properties)
    (h : ∀ m, f.max_length = some m → g.max_length = some m)
    (hg : failsMaxLength g p = false) : failsMaxLength f p = false := by
  unfold failsMaxLength at hg ⊢
  cases hf : f.max_length with
  | none => rfl
  | some m => rw [h m hf] at hg; exact hg

theorem failsWordCount_mono (f g : Filters) (p : Properties)
    (h : ∀ w, f.word_count = some w → g.word_count = some w)
    (hg : failsWordCount g p = false) : failsWordCount f p = false := by
  unfold failsWordCount at hg ⊢
  cases hf : f.word_count with
  | none => rfl
  | some w => rw [h w hf] at hg; exact hg

theorem failsContains_mono (env : Env) (f g : Filters) (r : StringRecord)
    (h : ∀ c, f.contains_character = some c → g.contains_character = some c)
    (hg : failsContains env g r = false) : failsContains env f r = false := by
  unfold failsContains at hg ⊢
  cases hf : f.contains_character with
  | none => rfl
  | some c => rw [h c hf] at hg; exact hg

/-- A record that passes a filter set passes every filter set with fewer
fields. -/
theorem matchesFilters_mono (env : Env) (f g : Filters) (hext : g.Extends f)
    (r : StringRecord) (hg : matchesFilters env g r = true) : matchesFilters env f r = true := by
  rw [matchesFilters_eq_true_iff] at hg ⊢
  obtain ⟨h1, h2, h3, h4, h5⟩ := hext
  exact ⟨failsPalindrome_mono f g _ h1 hg.1, failsMinLength_mono f g _ h2 hg.2.1,
    failsMaxLength_mono f g _ h3 hg.2.2.1, failsWordCount_mono f g _ h4 hg.2.2.2.1,
    failsContains_mono env f g r h5 hg.2.2.2.2⟩

/-- C18: when two queries validate to the filter sets `f` and `g`, and `g` has
every field of `f` with the same value, the data returned for `g` is a
sub-sequence of the data returned for `f`; and the query without parameters
returns the whole store listing. -/
theorem filtering_monotone (env : Env) (database : Store) (qf qg : Query) (f g : Filters)
    (hf : validateQuery env qf = .ok f) (hg : validateQuery env qg = .ok g)
    (hext : g.Extends f) :
    (∃ dataF dataG,
      getStrings env database qf = (.respond 200 (.filtered dataF dataF.length f), database)
      ∧ getStrings env database qg = (.respond 200 (.filtered dataG dataG.length g), database)
      ∧ List.Sublist dataG dataF)
    ∧ getStrings env database emptyQuery =
        (.respond 200 (.filtered database.values database.values.length Filters.empty),
          database) := by
  constructor
  · refine ⟨database.values.filter (matchesFilters env f),
      database.values.filter (matchesFilters env g), ?_, ?_, ?_⟩
    · unfold getStrings; rw [hf]
    · unfold getStrings; rw [hg]
    · exact List.monotone_filter_right _ (fun r hr => matchesFilters_mono env f g hext r hr)
  · have hv : validateQuery env emptyQuery = .ok Filters.empty := rfl
    have hall : database.values.filter (matchesFilters env Filters.empty) = database.values := by
      rw [List.filter_eq_self]
      intro r _
      rfl
    unfold getStrings
    rw [hv]
    simp only []
    rw [hall]

/-- C18 at a concrete input: `?is_palindrome=true&min_length=5` adds a filter
to `?is_palindrome=true`. -/
theorem filtering_monotone_witness :
    palindromeMin5Filters.Extends palindromeTrueFilters
    ∧ ∃ dataF dataG,
      getStrings node storeLevelGo palindromeTrue =
        (.respond 200 (.filtered dataF dataF.length palindromeTrueFilters), storeLevelGo)
      ∧ getStrings node storeLevelGo palindromeMin5 =
        (.respond 200 (.filtered dataG dataG.length palindromeMin5Filters), storeLevelGo)
      ∧ List.Sublist dataG dataF :=
  have hext : palindromeMin5Filters.Extends palindromeTrueFilters :=
    ⟨fun _ h => (by cases h; rfl), fun _ h => (by cases h), fun _ h => (by cases h),
      fun _ h => (by cases h), fun _ h => (by cases h)⟩
  ⟨hext,
    (filtering_monotone node storeLevelGo palindromeTrue palindromeMin5
      palindromeTrueFilters palindromeMin5Filters rfl rfl hext).1⟩

/-! ## The character filter and the frequency map -/

theorem singleton_infix_iff (c : Nat) (l : JSString) : [c] <:+: l ↔ c ∈ l := by
  constructor
  · rintro ⟨pre, post, h⟩
    rw [← h]
    simp
  · intro h
    obtain ⟨pre, post, hl⟩ := List.append_of_mem h
    exact ⟨pre, post, by rw [hl]; simp⟩

/-- C19: for every string `s` and every letter `c` in `a`..`z`, the record of
`s` passes the filter `contains_character = c` exactly when `c` is a key of
`letterFrequency(s)`, which is the `character_frequency_map` of the record. -/
theorem contains_filter_iff_frequency_key (env : Env) (now s hash : JSString) (c : Nat)
    (hc : 97 ≤ c ∧ c ≤ 122) :
    (matchesFilters env { Filters.empty with contains_character := some [c] }
        (buildResult env now s hash) = true
      ↔ [c] ∈ (letterFrequency env s).map Prod.fst)
    ∧ (buildResult env now s hash).properties.character_frequency_map = letterFrequency env s := by
  refine ⟨?_, rfl⟩
  have hmatch : matchesFilters env { Filters.empty with contains_character := some [c] }
      (buildResult env now s hash) = includes (env.toLowerCase s) [c] := by
    unfold matchesFilters failsPalindrome failsMinLength failsMaxLength failsWordCount
      failsContains
    simp [Filters.empty, buildResult]
  have hlow : isLowerAZ c = true := by
    simp only [isLowerAZ, Bool.and_eq_true, decide_eq_true_eq]
    exact hc
  rw [hmatch, includes_iff, singleton_infix_iff]
  unfold letterFrequency
  constructor
  · intro hmem
    exact List.mem_map_of_mem Prod.fst
      ((mem_tally_iff (env.toLowerCase s) [c] ((env.toLowerCase s).count c)).mpr
        ⟨c, rfl, hlow, hmem, rfl⟩)
  · intro hkey
    obtain ⟨⟨key, n⟩, hmem, hk⟩ := List.mem_map.mp hkey
    simp only at hk
    subst hk
    obtain ⟨u, hu, _, hin, _⟩ := (mem_tally_iff _ _ _).mp hmem
    rw [List.singleton_inj.mp hu]
    exact hin

/-- C19 at a concrete input: the record of "Level" passes
`contains_character = l`, and `l` is a key of its frequency map. -/
theorem contains_filter_iff_frequency_key_witness :
    utf16 "l" ∈ (letterFrequency node (utf16 "Level")).map Prod.fst
    ∧ matchesFilters node { Filters.empty with contains_character := some (utf16 "l") }
        (buildResult node exampleNow (utf16 "Level") (sha256Hex (utf16 "Level"))) = true :=
  ⟨by decide,
    (contains_filter_iff_frequency_key node exampleNow (utf16 "Level")
      (sha256Hex (utf16 "Level")) 108 (by decide)).1.mpr (by decide)⟩

/-! ## Routing and the transitions of the store -/

/-- What holds of the framework's 404 and of every route that can take the
request holds of the router's answer. -/
theorem dispatch_induction (P : Outcome × Store → Prop) (env : Env) (database : Store)
    (req : Request) (rs : List Route)
    (hdefault : P (.respond 404 (.text "Cannot route"), database))
    (hroute : ∀ route ∈ rs, route.accepts req.method = true →
      ∀ params, matchesPath route.pattern req.path = some params →
        P (route.handler env database req params)) :
    P (dispatch env database req rs) := by
  induction rs with
  | nil => exact hdefault
  | cons route rest ih =>
    have ih' := ih (fun r hr => hroute r (List.mem_cons_of_mem _ hr))
    unfold dispatch
    by_cases hacc : route.accepts req.method = true
    · rw [if_pos hacc]
      cases hm : matchesPath route.pattern req.path with
      | none => exact ih'
      | some params => exact hroute route (List.mem_cons_self _ _) hacc params hm
    · rw [if_neg hacc]
      exact ih'

theorem Store.set_of_get_none (database : Store) (hash : JSString) (result : StringRecord)
    (h : database.get hash = none) : database.set hash result = database ++ [(hash, result)] := by
  induction database with
  | nil => rfl
  | cons e rest ih =>
    obtain ⟨k, r⟩ := e
    rw [Store.get_cons] at h
    by_cases hk : k = hash
    · rw [if_pos hk] at h
      exact absurd h (by simp)
    · rw [if_neg hk] at h
      rw [Store.set_cons, if_neg hk, ih h]
      rfl

/-- The store after `POST /strings`: as before, or one new record at the end
of the listing, under a key that was free, with the answer 201. -/
theorem postStrings_transition (env : Env) (now : JSString) (database : Store)
    (data : JSValue) :
    ((postStrings env now database data).2 = database
      ∧ (postStrings env now database data).1.status ≠ some 201)
    ∨ ∃ s, database.get (env.sha256Hex s) = none
        ∧ postStrings env now database data =
          (.respond 201 (.record (buildResult env now s (env.sha256Hex s))),
            database ++ [(env.sha256Hex s, buildResult env now s (env.sha256Hex s))]) := by
  rcases body_cases data with ⟨s, rest, h⟩ | h
  · rw [postStrings_of_string env now database data s rest h]
    by_cases hsome : (database.get (env.sha256Hex s)).isSome = true
    · rw [if_pos hsome]
      exact Or.inl ⟨rfl, by simp [Outcome.status]⟩
    · rw [if_neg hsome]
      have hnone : database.get (env.sha256Hex s) = none := by
        rw [← Option.not_isSome_iff_eq_none]; exact hsome
      exact Or.inr ⟨s, hnone, by rw [Store.set_of_get_none _ _ _ hnone]⟩
  · obtain ⟨e, he⟩ := postStrings_of_not_string env now database data h
    rw [he]
    exact Or.inl ⟨rfl, by simp [Outcome.status]⟩

/-- The store after `DELETE /strings/:string_value`: as before, or without the
key of the value, which was there, with the answer 204. -/
theorem deleteString_transition (env : Env) (database : Store) (value : JSString) :
    ((deleteString env database value).2 = database
      ∧ (deleteString env database value).1.status ≠ some 204)
    ∨ ((database.get (env.sha256Hex value)).isSome = true
        ∧ deleteString env database value =
          (.respond 204 .empty, database.delete (env.sha256Hex value))) := by
  cases hget : database.get (env.sha256Hex value) with
  | none => exact Or.inl (by simp [deleteString, hget, Outcome.status])
  | some r => exact Or.inr (by simp [deleteString, hget])

theorem getString_store (env : Env) (database : Store) (value : JSString) :
    (getString env database value).2 = database := by
  cases hget : database.get (env.sha256Hex value) <;> simp [getString, hget]

theorem getStrings_store (env : Env) (database : Store) (query : Query) :
    (getStrings env database query).2 = database := by
  cases hv : validateQuery env query <;> simp [getStrings, hv]

theorem filterByNaturalLanguage_store (env : Env) (database : Store)
    (nlQuery : Option QueryValue) :
    (filterByNaturalLanguage env database nlQuery).2 = database := by
  unfold filterByNaturalLanguage
  split
  · rfl
  · rfl
  · split
    · rfl
    · simp only []
      split <;> rfl

theorem accepts_post (route : Route) (method : Method) (hm : route.method = .post)
    (h : route.accepts method = true) : method = .post := by
  unfold Route.accepts at h
  rw [hm] at h
  cases method <;> simp at h ⊢

theorem accepts_delete (route : Route) (method : Method) (hm : route.method = .delete)
    (h : route.accepts method = true) : method = .delete := by
  unfold Route.accepts at h
  rw [hm] at h
  cases method <;> simp at h ⊢

/-- Every request leaves the store as it was, or is a `POST` that adds one
record under a free key and is answered 201, or is a `DELETE` that removes a
key that was there and is answered 204. -/
theorem handle_transition (env : Env) (database : Store) (req : Request) :
    (handle env database req).2 = database
    ∨ (req.method = .post ∧ ∃ s, database.get (env.sha256Hex s) = none
        ∧ handle env database req =
          (.respond 201 (.record (buildResult env req.now s (env.sha256Hex s))),
            database ++ [(env.sha256Hex s, buildResult env req.now s (env.sha256Hex s))]))
    ∨ (req.method = .delete ∧ ∃ value, (database.get (env.sha256Hex value)).isSome = true
        ∧ handle env database req =
          (.respond 204 .empty, database.delete (env.sha256Hex value))) := by
  unfold handle
  by_cases hopt : req.method = .options
  · rw [if_pos hopt]
    exact Or.inl rfl
  · rw [if_neg hopt]
    apply dispatch_induction
      (fun result => result.2 = database
        ∨ (req.method = .post ∧ ∃ s, database.get (env.sha256Hex s) = none
          ∧ result = (.respond 201 (.record (buildResult env req.now s (env.sha256Hex s))),
              database ++ [(env.sha256Hex s, buildResult env req.now s (env.sha256Hex s))]))
        ∨ (req.method = .delete ∧ ∃ value, (database.get (env.sha256Hex value)).isSome = true
          ∧ result = (.respond 204 .empty, database.delete (env.sha256Hex value))))
    · exact Or.inl rfl
    · intro route hmem hacc params _
      simp only [routes, List.mem_cons, List.mem_singleton, List.not_mem_nil, or_false] at hmem
      rcases hmem with rfl | rfl | rfl | rfl | rfl | rfl
      · have hpost := accepts_post _ _ rfl hacc
        rcases postStrings_transition env req.now database req.body with h | ⟨s, hnone, hs⟩
        · exact Or.inl h.1
        · exact Or.inr (Or.inl ⟨hpost, s, hnone, hs⟩)
      · exact Or.inl (getString_store _ _ _)
      · exact Or.inl (getStrings_store _ _ _)
      · exact Or.inl (filterByNaturalLanguage_store _ _ _)
      · have hdel := accepts_delete _ _ rfl hacc
        rcases deleteString_transition env database (params.headD []) with h | ⟨hsome, hs⟩
        · exact Or.inl h.1
        · exact Or.inr (Or.inr ⟨hdel, _, hsome, hs⟩)
      · exact Or.inl rfl

/-- C14: a request answered 400, 404, 409 or 422, a request whose handler
throws, and every `GET` request leave the store as it was; a request that
changes the store is a `POST` answered 201 that adds one record under a key
that was free, or a `DELETE` answered 204 that removes one key that was
there and leaves every other key alone. -/
theorem store_changes_only_on_create_and_delete (env : Env) (database : Store)
    (req : Request) :
    (((handle env database req).1.status = some 400 ∨ (handle env database req).1.status = some 404
        ∨ (handle env database req).1.status = some 409
        ∨ (handle env database req).1.status = some 422) →
      (handle env database req).2 = database)
    ∧ ((handle env database req).1.status = none → (handle env database req).2 = database)
    ∧ (req.method = .get → (handle env database req).2 = database)
    ∧ ((handle env database req).2 ≠ database →
        (req.method = .post ∧ (handle env database req).1.status = some 201
          ∧ ∃ hash r, database.get hash = none
            ∧ (handle env database req).2 = database ++ [(hash, r)])
        ∨ (req.method = .delete ∧ (handle env database req).1.status = some 204
          ∧ ∃ hash, (database.get hash).isSome = true
            ∧ (handle env database req).2 = database.delete hash
            ∧ (handle env database req).2.get hash = none
            ∧ (∀ key, key ≠ hash → (handle env database req).2.get key = database.get key)
            ∧ (database.WF → (handle env database req).2.keys = database.keys.erase hash))) := by
  rcases handle_transition env database req with h | ⟨hm, s, hnone, h⟩ | ⟨hm, value, hsome, h⟩
  · exact ⟨fun _ => h, fun _ => h, fun _ => h, fun hne => absurd h hne⟩
  · refine ⟨fun hs => ?_, fun hs => ?_, fun hg => ?_,
      fun _ => Or.inl ⟨hm, ?_, env.sha256Hex s,
        buildResult env req.now s (env.sha256Hex s), hnone, ?_⟩⟩
    · rw [h] at hs
      simp [Outcome.status] at hs
    · rw [h] at hs
      simp [Outcome.status] at hs
    · rw [hm] at hg
      cases hg
    · rw [h]; rfl
    · rw [h]
  · refine ⟨fun hs => ?_, fun hs => ?_, fun hg => ?_,
      fun _ => Or.inr ⟨hm, ?_, env.sha256Hex value, hsome, ?_, ?_, ?_, ?_⟩⟩
    · rw [h] at hs
      simp [Outcome.status] at hs
    · rw [h] at hs
      simp [Outcome.status] at hs
    · rw [hm] at hg
      cases hg
    · rw [h]; rfl
    · rw [h]
    · rw [h]; exact Store.get_delete_self _ _
    · intro key hne
      rw [h]; exact Store.get_delete_ne _ _ _ hne
    · intro hwf
      rw [h]; exact Store.keys_delete _ _ hwf

/-- C14 at concrete inputs: `DELETE /strings/go` on the empty store is
answered 404 and leaves it empty; `POST /strings` of "level" changes the empty
store, with the answer 201. -/
theorem store_changes_only_on_create_and_delete_witness :
    (handle node [] (deleteRequest "go")).1.status = some 404
    ∧ (handle node [] (deleteRequest "go")).2 = []
    ∧ (handle node [] (postRequest (bodyWith "level"))).2 ≠ []
    ∧ (handle node [] (postRequest (bodyWith "level"))).1.status = some 201 :=
  ⟨by decide!,
    (store_changes_only_on_create_and_delete node [] (deleteRequest "go")).1
      (Or.inr (Or.inl (by decide!))),
    by decide!,
    ((store_changes_only_on_create_and_delete node []
      (postRequest (bodyWith "level"))).2.2.2 (by decide!)).elim
      (fun h => h.2.1) (fun h => absurd h.1 (by decide))⟩

/-! ## The invariant of the store -/

theorem Store.mem_of_get (database : Store) (hash : JSString) (r : StringRecord)
    (h : database.get hash = some r) : (hash, r) ∈ database := by
  induction database with
  | nil => simp [Store.get] at h
  | cons e rest ih =>
    obtain ⟨k, r'⟩ := e
    rw [Store.get_cons] at h
    by_cases hk : k = hash
    · rw [if_pos hk] at h
      cases h
      subst hk
      exact List.mem_cons_self _ _
    · rw [if_neg hk] at h
      exact List.mem_cons_of_mem _ (ih h)

/-- What the handlers keep true of every entry of the store. -/
theorem entry_invariant_step (env : Env) (database : Store) (req : Request)
    (hwf : database.WF)
    (hentries : ∀ entry ∈ database, ∃ now,
      entry.2 = buildResult env now entry.2.value entry.1
      ∧ entry.1 = env.sha256Hex entry.2.value) :
    (handle env database req).2.WF
    ∧ ∀ entry ∈ (handle env database req).2, ∃ now,
        entry.2 = buildResult env now entry.2.value entry.1
        ∧ entry.1 = env.sha256Hex entry.2.value := by
  rcases handle_transition env database req with h | ⟨_, s, hnone, h⟩ | ⟨_, value, _, h⟩
  · rw [h]; exact ⟨hwf, hentries⟩
  · rw [h]
    constructor
    · have hnot : env.sha256Hex s ∉ database.keys := (Store.get_eq_none_iff _ _).mp hnone
      unfold Store.WF Store.keys at hwf hnot ⊢
      rw [List.map_append]
      exact List.Nodup.append hwf (List.nodup_singleton _) (by simpa using hnot)
    · intro entry hmem
      rcases List.mem_append.mp hmem with hmem | hmem
      · exact hentries entry hmem
      · rw [List.mem_singleton] at hmem
        subst hmem
        exact ⟨req.now, rfl, rfl⟩
  · rw [h]
    constructor
    · unfold Store.WF Store.keys at hwf ⊢
      unfold Store.delete
      exact List.Nodup.sublist ((List.filter_sublist _).map Prod.fst) hwf
    · intro entry hmem
      exact hentries entry (List.mem_of_mem_filter hmem)

theorem reachable_invariant (env : Env) (database : Store) (h : Reachable env database) :
    database.WF
    ∧ ∀ entry ∈ database, ∃ now,
        entry.2 = buildResult env now entry.2.value entry.1
        ∧ entry.1 = env.sha256Hex entry.2.value := by
  induction h with
  | start => exact ⟨List.nodup_nil, fun entry hmem => by cases hmem⟩
  | step database req _ ih => exact entry_invariant_step env database req ih.1 ih.2

/-- C16: in every store reachable from the empty store by requests, each key
is there once, every key `h` maps to a record `r` with
`r.id = h = contentHash(r.value)`, `r.properties.sha256_hash = r.id`,
`r.properties.length` the length of `r.value` and
`r.properties.character_frequency_map = letterFrequency(r.value)`; and no two
records of the listing have the same value. -/
theorem reachable_store_invariant (env : Env) (database : Store)
    (hreach : Reachable env database) :
    database.WF
    ∧ (∀ hash r, database.get hash = some r →
        r.id = hash ∧ hash = env.sha256Hex r.value ∧ r.properties.sha256_hash = r.id
        ∧ r.properties.length = r.value.length
        ∧ r.properties.character_frequency_map = letterFrequency env r.value)
    ∧ (database.values.map (fun r => r.value)).Nodup := by
  obtain ⟨hwf, hentries⟩ := reachable_invariant env database hreach
  refine ⟨hwf, ?_, ?_⟩
  · intro hash r hget
    obtain ⟨now, hr, hk⟩ := hentries (hash, r) (Store.mem_of_get _ _ _ hget)
    simp only at hr hk
    refine ⟨?_, hk, ?_, ?_, ?_⟩
    · rw [hr]; rfl
    · rw [hr]; rfl
    · rw [hr]; rfl
    · rw [hr]; rfl
  · have hkeys : database.keys
        = (database.values.map (fun r => r.value)).map env.sha256Hex := by
      unfold Store.keys Store.values
      rw [List.map_map, List.map_map]
      apply List.map_congr_left
      intro entry hmem
      obtain ⟨_, _, hk⟩ := hentries entry hmem
      exact hk
    unfold Store.WF at hwf
    rw [hkeys] at hwf
    exact List.Nodup.of_map _ hwf

/-- C16 at a concrete input: the store after posting "level" and "go" is
reachable, holds the two values, and satisfies the invariant. -/
theorem reachable_store_invariant_witness :
    Reachable node (handle node (handle node [] (postRequest (bodyWith "level"))).2
      (postRequest (bodyWith "go"))).2
    ∧ ((handle node (handle node [] (postRequest (bodyWith "level"))).2
        (postRequest (bodyWith "go"))).2.values.map (fun r => r.value)).Nodup :=
  ⟨Reachable.step _ _ (Reachable.step _ _ Reachable.start),
    (reachable_store_invariant node _
      (Reachable.step _ _ (Reachable.step _ _ Reachable.start))).2.2⟩

/-! ## Which handler answers -/

theorem getString_responds (env : Env) (database : Store) (value : JSString) :
    (getString env database value).1.status.isSome = true := by
  cases hget : database.get (env.sha256Hex value) <;> simp [getString, hget, Outcome.status]

theorem deleteString_responds (env : Env) (database : Store) (value : JSString) :
    (deleteString env database value).1.status.isSome = true := by
  cases hget : database.get (env.sha256Hex value) <;> simp [deleteString, hget, Outcome.status]

theorem getStrings_responds (env : Env) (database : Store) (query : Query) :
    (getStrings env database query).1.status.isSome = true := by
  cases hv : validateQuery env query <;> simp [getStrings, hv, Outcome.status]

/-- The natural-language handler answers 400, 500 or 200. -/
theorem filterByNaturalLanguage_status (env : Env) (database : Store)
    (nlQuery : Option QueryValue) :
    (filterByNaturalLanguage env database nlQuery).1.status = some 400
    ∨ (filterByNaturalLanguage env database nlQuery).1.status = some 500
    ∨ (filterByNaturalLanguage env database nlQuery).1.status = some 200 := by
  unfold filterByNaturalLanguage
  split
  · exact Or.inl rfl
  · exact Or.inr (Or.inl rfl)
  · split
    · exact Or.inl rfl
    · simp only []
      split
      · exact Or.inl rfl
      · exact Or.inr (Or.inr rfl)

/-- C13, the code at the failing input: `GET /strings/filter-by-natural-language`
is answered by the lookup-by-value handler, with the path segment as the value,
because `/strings/:string_value` is registered first (line 54, before line
144); on the empty store the answer is 404 whatever the query, a status the
natural-language handler never gives, and for the query "palindromic strings"
that handler would have answered 200. -/
theorem natural_language_route_shadowed (env : Env) (database : Store)
    (nlQuery : Option QueryValue) :
    handle env database (naturalLanguageRequest nlQuery) =
      getString env database (utf16 "filter-by-natural-language")
    ∧ handle env [] (naturalLanguageRequest nlQuery) =
      (.respond 404 (.error "String does not exist in the system"), [])
    ∧ (filterByNaturalLanguage env database nlQuery).1.status ≠ some 404
    ∧ (filterByNaturalLanguage node [] (some (.str (utf16 "palindromic strings")))).1.status
        = some 200 := by
  refine ⟨rfl, rfl, ?_, by decide⟩
  rcases filterByNaturalLanguage_status env database nlQuery with h | h | h <;> rw [h] <;> simp

/-- C15, the code at the failing inputs: for a `POST /strings` whose body is
`{}`, or whose first value is `null`, a number or an array, an exception leaves
the handler and no response is produced by it (the handler of lines 17-51 has
no `try`/`catch`, unlike those of lines 67 and 144); every request with
another method does get a response. -/
theorem post_exception_escapes (env : Env) (database : Store) :
    handle env database (postRequest (.object [])) = (.throws "TypeError", database)
    ∧ handle env database (postRequest (.object [(utf16 "value", .null)]))
        = (.throws "TypeError", database)
    ∧ handle env database (postRequest (.object [(utf16 "value", .number 5 0)]))
        = (.throws "TypeError [ERR_INVALID_ARG_TYPE]", database)
    ∧ handle env database (postRequest (.object [(utf16 "value", .array [.number 1 0])]))
        = (.throws "TypeError [ERR_INVALID_ARG_TYPE]", database)
    ∧ ∀ req : Request, req.method ≠ .post →
        (handle env database req).1.status.isSome = true := by
  refine ⟨rfl, rfl, rfl, rfl, fun req hne => ?_⟩
  unfold handle
  by_cases hopt : req.method = .options
  · rw [if_pos hopt]; rfl
  · rw [if_neg hopt]
    apply dispatch_induction (fun result => result.1.status.isSome = true)
    · rfl
    · intro route hmem hacc params _
      simp only [routes, List.mem_cons, List.mem_singleton, List.not_mem_nil, or_false] at hmem
      rcases hmem with rfl | rfl | rfl | rfl | rfl | rfl
      · exact absurd (accepts_post _ _ rfl hacc) hne
      · exact getString_responds _ _ _
      · exact getStrings_responds _ _ _
      · rcases filterByNaturalLanguage_status env database req.nlQuery with h | h | h <;>
          simp only [h] <;> rfl
      · exact deleteString_responds _ _ _
      · rfl

/-! ## Insert and lookup through the router -/

theorem handle_createRequest (env : Env) (database : Store) (now : JSString) (data : JSValue) :
    handle env database (createRequest now data) = postStrings env now database data := rfl

theorem handle_lookupRequest (env : Env) (database : Store) (value : JSString)
    (hne : value ≠ []) :
    handle env database (lookupRequest value) = getString env database value := by
  cases value with
  | nil => exact absurd rfl hne
  | cons u rest => rfl

theorem handle_removeRequest (env : Env) (database : Store) (value : JSString)
    (hne : value ≠ []) :
    handle env database (removeRequest value) = deleteString env database value := by
  cases value with
  | nil => exact absurd rfl hne
  | cons u rest => rfl

/-- C5 as stated fails for the empty string: `POST /strings` of `{"value": ""}`
is answered 201 with the record of `""`, and `GET /strings/` followed by the
empty value is the path `/strings/`, which the listing handler of line 67
answers: 200 with `data`, `count` and `filters_applied`, not the record. -/
theorem empty_string_lookup_lists :
    handle node [] (createRequest exampleNow (bodyWith "")) =
      (.respond 201 (.record (buildResult node exampleNow [] (sha256Hex []))),
        [(sha256Hex [], buildResult node exampleNow [] (sha256Hex []))])
    ∧ handle node [(sha256Hex [], buildResult node exampleNow [] (sha256Hex []))]
        (lookupRequest []) =
      (.respond 200
        (.filtered [buildResult node exampleNow [] (sha256Hex [])] 1 Filters.empty),
        [(sha256Hex [], buildResult node exampleNow [] (sha256Hex []))]) := by
  decide!

/-- C5, amended: for every store and every non-empty string `s`, after a
`POST /strings` of `s` answered 201, `GET /strings/s` is answered 200 with the
record the POST returned, whose value is `s` and whose id is `contentHash(s)`;
after a `DELETE /strings/value` answered 204, `GET /strings/value` is answered
404; and `GET /strings/value` for a non-empty value is answered with what the
store holds under `contentHash(value)`, the store staying as it was. -/
theorem request_roundtrip (env : Env) (now : JSString) (database : Store)
    (data : JSValue) (s : JSString) (rest : List JSValue)
    (hbody : objectValues data = some (.string s :: rest)) (hne : s ≠ [])
    (hcreated : (handle env database (createRequest now data)).1.status = some 201) :
    (∃ r, (handle env database (createRequest now data)).1 = .respond 201 (.record r)
        ∧ r.value = s ∧ r.id = env.sha256Hex s
        ∧ handle env (handle env database (createRequest now data)).2 (lookupRequest s) =
            (.respond 200 (.record r), (handle env database (createRequest now data)).2))
    ∧ (∀ (db : Store) (value : JSString), value ≠ [] →
        (handle env db (removeRequest value)).1.status = some 204 →
        handle env (handle env db (removeRequest value)).2 (lookupRequest value) =
          (.respond 404 (.error "String does not exist in the system"),
            (handle env db (removeRequest value)).2))
    ∧ (∀ (db : Store) (value : JSString), value ≠ [] →
        (∀ r, handle env db (lookupRequest value) = (.respond 200 (.record r), db)
            ↔ db.get (env.sha256Hex value) = some r)
        ∧ (handle env db (lookupRequest value) =
              (.respond 404 (.error "String does not exist in the system"), db)
            ↔ db.get (env.sha256Hex value) = none)) := by
  rw [handle_createRequest] at hcreated ⊢
  obtain ⟨h1, h2, h3⟩ := handlers_roundtrip env now database data s rest hbody hcreated
  refine ⟨?_, ?_, ?_⟩
  · rw [handle_lookupRequest env _ s hne]
    exact h1
  · intro db value hv hdel
    rw [handle_removeRequest env db value hv] at hdel ⊢
    rw [handle_lookupRequest env _ value hv]
    exact h2 db value hdel
  · intro db value hv
    rw [handle_lookupRequest env db value hv]
    exact h3 db value

/-- C5 amended, at a concrete input: `POST /strings` of "level" on the empty
store is answered 201, and `GET /strings/level` then returns that record. -/
theorem request_roundtrip_witness :
    (handle node [] (createRequest exampleNow (bodyWith "level"))).1.status = some 201
    ∧ ∃ r, (handle node [] (createRequest exampleNow (bodyWith "level"))).1
          = .respond 201 (.record r)
        ∧ r.value = utf16 "level" ∧ r.id = node.sha256Hex (utf16 "level")
        ∧ handle node (handle node [] (createRequest exampleNow (bodyWith "level"))).2
            (lookupRequest (utf16 "level")) =
          (.respond 200 (.record r),
            (handle node [] (createRequest exampleNow (bodyWith "level"))).2) :=
  ⟨by decide!,
    (request_roundtrip node exampleNow [] (bodyWith "level") (utf16 "level") [] rfl
      (by decide) (by decide!)).1⟩

end StringAnalyzer
